import Mathlib

/-!
Verification of the design-to-code CLI glue layer.

The repository chains two remote text-generation services: a design generator
(Gemini) that produces a `DesignSpec` JSON value, and a code generator (Claude)
that produces a `GeneratedCode` file list, which an output writer materialises
on disk.  This development shallowly embeds the deterministic parts of that
glue: the brace-match JSON extraction and `JSON.parse`/`JSON.stringify` library
models, the prompt construction, the filesystem writer, and the
credential/branching structure of the two service wrappers, and proves the
spec's testable properties about them.

Modelling conventions:
  - text is `List Char`; a JS string value `s` is embedded as `s.data`;
  - `JSON.parse` / `JSON.stringify(v, null, 2)` are modelled by `jsonParse` /
    `jsonStringify` over the `Json` value type below; numbers are modelled as
    integers and string escaping covers the escapes the printer emits
    (quote, backslash, newline, tab, carriage return); other characters pass
    through unescaped, which the parser accepts;
  - the filesystem is a pair of total maps: file contents indexed by segment
    lists (a JS path `a/b/c.ts` is embedded as `["a","b","c.ts"]`) and a
    directory-existence map;
  - external effects (the network, `execAsync`, the spawned CLI) are oracles
    passed as arguments, and the service wrappers additionally return an event
    trace so that claims about which effects were attempted are statable.
-/

/-! ## JSON values -/

/-- The JSON value model underlying `JSON.parse` / `JSON.stringify`.  Object
fields keep their written order and may repeat, so a value is a faithful image
of its text. -/
inductive Json where
  | null : Json
  | bool : Bool → Json
  | num : Int → Json
  | str : List Char → Json
  | arr : List Json → Json
  | obj : List (List Char × Json) → Json

/-! ## Character helpers -/

/-- The JSON insignificant-whitespace characters. -/
def isWs (c : Char) : Bool :=
  c = ' ' || c = '\n' || c = '\t' || c = '\r'

/-- Drop leading JSON whitespace. -/
def skipWs : List Char → List Char
  | [] => []
  | c :: r => if isWs c then skipWs r else c :: r

/-- `n` spaces, the indentation unit of `JSON.stringify(v, null, 2)`. -/
def nspaces (n : Nat) : List Char := List.replicate n ' '

/-! ## The printer: a model of `JSON.stringify(v, null, 2)` -/

/-- Escape one character as `JSON.stringify` does for the characters the
repository's values can carry. -/
def escChar (c : Char) : List Char :=
  if c = '"' then ['\\', '"']
  else if c = '\\' then ['\\', '\\']
  else if c = '\n' then ['\\', 'n']
  else if c = '\t' then ['\\', 't']
  else if c = '\r' then ['\\', 'r']
  else [c]

/-- Escape a string body. -/
def escape (s : List Char) : List Char := s.foldr (fun c acc => escChar c ++ acc) []

/-- Decimal digits of a natural number, most significant first. -/
def natChars (n : Nat) : List Char :=
  if n = 0 then ['0'] else (Nat.digits 10 n).reverse.map Nat.digitChar

/-- Decimal rendering of an integer. -/
def intChars (n : Int) : List Char :=
  if n < 0 then '-' :: natChars n.natAbs else natChars n.toNat

/-- Join already-rendered items with the `",\n"` separator of
`JSON.stringify(v, null, 2)`. -/
def joinItems : List (List Char) → List Char
  | [] => []
  | [x] => x
  | x :: y :: t => x ++ ',' :: '\n' :: joinItems (y :: t)

/-- Pretty-print a value at indentation `ind`, as `JSON.stringify(v, null, 2)`
does: non-empty containers put each element on its own line, indented two
further spaces, and close at the parent indentation. -/
def prettyP (ind : Nat) : Json → List Char
  | .null => "null".data
  | .bool true => "true".data
  | .bool false => "false".data
  | .num n => intChars n
  | .str s => '"' :: (escape s ++ ['"'])
  | .arr [] => ['[', ']']
  | .arr (a :: t) =>
    '[' :: '\n' ::
      (joinItems ((a :: t).attach.map fun x => nspaces (ind + 2) ++ prettyP (ind + 2) x.1)
        ++ '\n' :: (nspaces ind ++ [']']))
  | .obj [] => ['{', '}']
  | .obj (a :: t) =>
    '{' :: '\n' ::
      (joinItems ((a :: t).attach.map fun kv =>
          nspaces (ind + 2) ++ '"' :: (escape kv.1.1 ++ '"' :: ':' :: ' ' ::
            prettyP (ind + 2) kv.1.2))
        ++ '\n' :: (nspaces ind ++ ['}']))
termination_by v => sizeOf v
decreasing_by
  · have := List.sizeOf_lt_of_mem x.2
    simp only [Json.arr.sizeOf_spec]
    omega
  · have h1 := List.sizeOf_lt_of_mem kv.2
    have h2 : sizeOf kv.1.2 < sizeOf kv.1 := by
      obtain ⟨k, v⟩ := kv.1
      simp only [Prod.mk.sizeOf_spec]
      omega
    simp only [Json.obj.sizeOf_spec]
    omega

/-- The model of `JSON.stringify(data, null, 2)` as the repository calls it in
`saveJson` and in the code-generation prompt. -/
def jsonStringify (v : Json) : List Char := prettyP 0 v

/-! ## The parser: a model of `JSON.parse` -/

/-- Parse a JSON string body after the opening quote, undoing the escapes the
printer emits; returns the decoded characters and the input after the closing
quote. -/
def unescChar (c : Char) : Char :=
  if c = 'n' then '\n'
  else if c = 't' then '\t'
  else if c = 'r' then '\r'
  else if c = 'b' then '\x08'
  else if c = 'f' then '\x0c'
  else c

/-- String-body parser: consumes up to and including the closing quote. -/
def parseStrBody : List Char → Option (List Char × List Char)
  | [] => none
  | '"' :: r => some ([], r)
  | '\\' :: [] => none
  | '\\' :: e :: r2 =>
    match parseStrBody r2 with
    | some (s, r3) => some (unescChar e :: s, r3)
    | none => none
  | c :: r =>
    match parseStrBody r with
    | some (s, r3) => some (c :: s, r3)
    | none => none

/-- Accumulate a run of decimal digits. -/
def parseNatAux (acc : Nat) : List Char → Nat × List Char
  | [] => (acc, [])
  | c :: r => if c.isDigit then parseNatAux (acc * 10 + (c.toNat - 48)) r else (acc, c :: r)

/-- Does the input start with a decimal digit? -/
def startsDigit : List Char → Bool
  | [] => false
  | c :: _ => c.isDigit

/-- Does the input start with the given character? -/
def headEq (c : Char) : List Char → Bool
  | [] => false
  | x :: _ => x = c

/-- What the recursive descent is currently reading: a single value, the
elements of an array after `[`, or the fields of an object after `{`. -/
inductive PKind where
  | val : PKind
  | arrElems : PKind
  | objFields : PKind

/-- Intermediate parse results for the three modes. -/
inductive PRes where
  | v : Json → PRes
  | es : List Json → PRes
  | fs : List (List Char × Json) → PRes

/-- The recursive-descent core, fuelled so that the recursion is structural;
`jsonParse` supplies more fuel than any input can consume. -/
def parseF : Nat → PKind → List Char → Option (PRes × List Char)
  | 0, _, _ => none
  | fuel + 1, .val, s =>
    match skipWs s with
    | [] => none
    | c :: r =>
      if c.isDigit then
        let p := parseNatAux 0 (c :: r)
        some (.v (.num (p.1 : Int)), p.2)
      else if c = '-' then
        if startsDigit r then
          let p := parseNatAux 0 r
          some (.v (.num (-(p.1 : Int))), p.2)
        else none
      else if c = '"' then
        match parseStrBody r with
        | some (s2, r2) => some (.v (.str s2), r2)
        | none => none
      else if c = '[' then
        if headEq ']' (skipWs r) then some (.v (.arr []), (skipWs r).tail)
        else
          match parseF fuel .arrElems r with
          | some (.es l, r2) => some (.v (.arr l), r2)
          | _ => none
      else if c = '{' then
        if headEq '}' (skipWs r) then some (.v (.obj []), (skipWs r).tail)
        else
          match parseF fuel .objFields r with
          | some (.fs l, r2) => some (.v (.obj l), r2)
          | _ => none
      else if c = 'n' then
        match r with
        | 'u' :: 'l' :: 'l' :: r2 => some (.v .null, r2)
        | _ => none
      else if c = 't' then
        match r with
        | 'r' :: 'u' :: 'e' :: r2 => some (.v (.bool true), r2)
        | _ => none
      else if c = 'f' then
        match r with
        | 'a' :: 'l' :: 's' :: 'e' :: r2 => some (.v (.bool false), r2)
        | _ => none
      else none
  | fuel + 1, .arrElems, s =>
    match parseF fuel .val s with
    | some (.v j, r) =>
      (match skipWs r with
       | [] => none
       | c :: r2 =>
         if c = ',' then
           match parseF fuel .arrElems r2 with
           | some (.es l, r3) => some (.es (j :: l), r3)
           | _ => none
         else if c = ']' then some (.es [j], r2)
         else none)
    | _ => none
  | fuel + 1, .objFields, s =>
    match skipWs s with
    | [] => none
    | c :: r =>
      if c = '"' then
        match parseStrBody r with
        | some (k, r1) =>
          (match skipWs r1 with
           | [] => none
           | c1 :: r2 =>
             if c1 = ':' then
               match parseF fuel .val r2 with
               | some (.v j, r3) =>
                 (match skipWs r3 with
                  | [] => none
                  | c2 :: r4 =>
                    if c2 = ',' then
                      match parseF fuel .objFields r4 with
                      | some (.fs l, r5) => some (.fs ((k, j) :: l), r5)
                      | _ => none
                    else if c2 = '}' then some (.fs [(k, j)], r4)
                    else none)
               | _ => none
             else none)
        | none => none
      else none

/-- The model of `JSON.parse`: parse one value and require that only
whitespace remains. -/
def jsonParse (s : List Char) : Option Json :=
  match parseF (s.length + 1) .val s with
  | some (.v j, r) => if skipWs r = [] then some j else none
  | _ => none

/-! ## Whitespace lemmas -/

/-- Input consisting solely of JSON whitespace. -/
def wsOnly (l : List Char) : Prop := ∀ c ∈ l, isWs c = true

theorem wsOnly_nil : wsOnly [] := by intro c hc; cases hc

theorem wsOnly_nspaces (n : Nat) : wsOnly (nspaces n) := by
  intro c hc
  have : c = ' ' := List.eq_of_mem_replicate hc
  subst this; rfl

theorem wsOnly_append {a b : List Char} (ha : wsOnly a) (hb : wsOnly b) : wsOnly (a ++ b) := by
  intro c hc
  rcases List.mem_append.1 hc with h | h
  · exact ha c h
  · exact hb c h

theorem wsOnly_cons {c : Char} {l : List Char} (hc : isWs c = true) (hl : wsOnly l) :
    wsOnly (c :: l) := by
  intro d hd
  rcases List.mem_cons.1 hd with h | h
  · exact h ▸ hc
  · exact hl d h

theorem skipWs_of_head {c : Char} (r : List Char) (h : isWs c = false) :
    skipWs (c :: r) = c :: r := by
  simp [skipWs, h]

theorem skipWs_append {W : List Char} (s : List Char) (h : wsOnly W) :
    skipWs (W ++ s) = skipWs s := by
  induction W with
  | nil => rfl
  | cons c t ih =>
    have hc : isWs c = true := h c (List.mem_cons_self c t)
    have ht : wsOnly t := fun d hd => h d (List.mem_cons_of_mem c hd)
    simp [skipWs, hc, ih ht]

theorem skipWs_idem (s : List Char) : skipWs (skipWs s) = skipWs s := by
  induction s with
  | nil => rfl
  | cons c r ih =>
    by_cases h : isWs c = true
    · simp [skipWs, h, ih]
    · have h' : isWs c = false := by revert h; cases isWs c <;> simp
      simp [skipWs, h']

theorem ws_not_digit {c : Char} (h : isWs c = true) : c.isDigit = false := by
  have : c = ' ' ∨ c = '\n' ∨ c = '\t' ∨ c = '\r' := by
    simpa [isWs, Bool.or_eq_true, decide_eq_true_iff, or_assoc] using h
  rcases this with h1 | h1 | h1 | h1 <;> subst h1 <;> rfl

theorem isDigit_not_ws {c : Char} (h : c.isDigit = true) : isWs c = false := by
  rcases hw : isWs c with _ | _
  · rfl
  · rw [ws_not_digit hw] at h; cases h

theorem isDigit_ne {c : Char} (h : c.isDigit = true) (d : Char) (hd : d.isDigit = false) :
    c ≠ d := by
  intro he; rw [he, hd] at h; cases h

/-! ## String-body round trip -/

theorem escape_cons (c : Char) (cs : List Char) :
    escape (c :: cs) = escChar c ++ escape cs := by
  simp [escape]

theorem parseStrBody_esc_step (e : Char) (X : List Char) :
    parseStrBody ('\\' :: e :: X) =
      match parseStrBody X with
      | some (s, r3) => some (unescChar e :: s, r3)
      | none => none := rfl

theorem parseStrBody_escape : ∀ (cs rest : List Char),
    parseStrBody (escape cs ++ '"' :: rest) = some (cs, rest) := by
  intro cs
  induction cs with
  | nil => intro rest; rfl
  | cons c cs ih =>
    intro rest
    rw [escape_cons, List.append_assoc]
    by_cases h1 : c = '"'
    · subst h1
      rw [show escChar '"' = ['\\', '"'] from rfl]
      rw [show (['\\', '"'] : List Char) ++ (escape cs ++ '"' :: rest)
          = '\\' :: '"' :: (escape cs ++ '"' :: rest) from rfl]
      rw [parseStrBody_esc_step, ih]
      rfl
    · by_cases h2 : c = '\\'
      · subst h2
        rw [show escChar '\\' = ['\\', '\\'] from rfl]
        rw [show (['\\', '\\'] : List Char) ++ (escape cs ++ '"' :: rest)
            = '\\' :: '\\' :: (escape cs ++ '"' :: rest) from rfl]
        rw [parseStrBody_esc_step, ih]
        rfl
      · by_cases h3 : c = '\n'
        · subst h3
          rw [show escChar '\n' = ['\\', 'n'] from rfl]
          rw [show (['\\', 'n'] : List Char) ++ (escape cs ++ '"' :: rest)
              = '\\' :: 'n' :: (escape cs ++ '"' :: rest) from rfl]
          rw [parseStrBody_esc_step, ih]
          rfl
        · by_cases h4 : c = '\t'
          · subst h4
            rw [show escChar '\t' = ['\\', 't'] from rfl]
            rw [show (['\\', 't'] : List Char) ++ (escape cs ++ '"' :: rest)
                = '\\' :: 't' :: (escape cs ++ '"' :: rest) from rfl]
            rw [parseStrBody_esc_step, ih]
            rfl
          · by_cases h5 : c = '\r'
            · subst h5
              rw [show escChar '\r' = ['\\', 'r'] from rfl]
              rw [show (['\\', 'r'] : List Char) ++ (escape cs ++ '"' :: rest)
                  = '\\' :: 'r' :: (escape cs ++ '"' :: rest) from rfl]
              rw [parseStrBody_esc_step, ih]
              rfl
            · rw [show escChar c = [c] by simp [escChar, h1, h2, h3, h4, h5]]
              rw [show ([c] : List Char) ++ (escape cs ++ '"' :: rest)
                  = c :: (escape cs ++ '"' :: rest) from rfl]
              rw [show parseStrBody (c :: (escape cs ++ '"' :: rest))
                  = match parseStrBody (escape cs ++ '"' :: rest) with
                    | some (s, r3) => some (c :: s, r3)
                    | none => none from by
                simp [parseStrBody, h1, h2]]
              rw [ih]

/-! ## Decimal round trip -/

theorem digitChar_isDigit {d : Nat} (h : d < 10) : (Nat.digitChar d).isDigit = true := by
  interval_cases d <;> rfl

theorem digitChar_val {d : Nat} (h : d < 10) : (Nat.digitChar d).toNat - 48 = d := by
  interval_cases d <;> rfl

theorem parseNatAux_stop (acc : Nat) {rest : List Char} (h : startsDigit rest = false) :
    parseNatAux acc rest = (acc, rest) := by
  cases rest with
  | nil => rfl
  | cons c r =>
    have hc : c.isDigit = false := by simpa [startsDigit] using h
    simp [parseNatAux, hc]

theorem parseNatAux_digits : ∀ (ds : List Nat), (∀ d ∈ ds, d < 10) →
    ∀ (acc : Nat) {rest : List Char}, startsDigit rest = false →
    parseNatAux acc (ds.map Nat.digitChar ++ rest) =
      (ds.foldl (fun a d => a * 10 + d) acc, rest) := by
  intro ds
  induction ds with
  | nil => intro _ acc rest h; simpa using parseNatAux_stop acc h
  | cons d ds ih =>
    intro hds acc rest h
    have hd : d < 10 := hds d (List.mem_cons_self d ds)
    have hds' : ∀ e ∈ ds, e < 10 := fun e he => hds e (List.mem_cons_of_mem d he)
    have e1 : parseNatAux acc (List.map Nat.digitChar (d :: ds) ++ rest)
        = parseNatAux (acc * 10 + d) (List.map Nat.digitChar ds ++ rest) := by
      simp [parseNatAux, digitChar_isDigit hd, digitChar_val hd]
    rw [e1, ih hds' _ h, List.foldl_cons]

theorem foldl_digits_value (n : Nat) :
    (Nat.digits 10 n).reverse.foldl (fun a d => a * 10 + d) 0 = n := by
  rw [List.foldl_reverse]
  have key : ∀ L : List Nat, L.foldr (fun x y => y * 10 + x) 0 = Nat.ofDigits 10 L := by
    intro L
    induction L with
    | nil => simp [Nat.ofDigits]
    | cons d L ih => simp [Nat.ofDigits_cons, ih]; ring
  rw [key, Nat.ofDigits_digits]

theorem parse_natChars (n : Nat) {rest : List Char} (h : startsDigit rest = false) :
    parseNatAux 0 (natChars n ++ rest) = (n, rest) := by
  by_cases h0 : n = 0
  · subst h0
    show parseNatAux 0 ('0' :: rest) = _
    rw [show parseNatAux 0 ('0' :: rest) = parseNatAux 0 rest by simp [parseNatAux]]
    exact parseNatAux_stop 0 h
  · rw [natChars, if_neg h0,
      parseNatAux_digits ((Nat.digits 10 n).reverse)
        (fun d hd => Nat.digits_lt_base (by norm_num) (List.mem_reverse.1 hd)) 0 h,
      foldl_digits_value]

theorem natChars_cons (n : Nat) : ∃ c t, natChars n = c :: t ∧ c.isDigit = true := by
  by_cases h0 : n = 0
  · exact ⟨'0', [], by simp [natChars, h0], rfl⟩
  · have hne : Nat.digits 10 n ≠ [] := Nat.digits_ne_nil_iff_ne_zero.2 h0
    obtain ⟨d, ds, hds⟩ := List.exists_cons_of_ne_nil (by simpa using hne :
      (Nat.digits 10 n).reverse ≠ [])
    refine ⟨Nat.digitChar d, ds.map Nat.digitChar, by simp [natChars, h0, hds], ?_⟩
    have : d ∈ Nat.digits 10 n := by
      rw [← List.mem_reverse, hds]; exact List.mem_cons_self d ds
    exact digitChar_isDigit (Nat.digits_lt_base (by norm_num) this)

/-! ## Printer unfolding and shape lemmas -/

theorem prettyP_null (ind : Nat) : prettyP ind .null = "null".data := by rw [prettyP]

theorem prettyP_true (ind : Nat) : prettyP ind (.bool true) = "true".data := by rw [prettyP]

theorem prettyP_false (ind : Nat) : prettyP ind (.bool false) = "false".data := by rw [prettyP]

theorem prettyP_num (ind : Nat) (n : Int) : prettyP ind (.num n) = intChars n := by rw [prettyP]

theorem prettyP_str (ind : Nat) (s : List Char) :
    prettyP ind (.str s) = '"' :: (escape s ++ ['"']) := by rw [prettyP]

theorem prettyP_arr_nil (ind : Nat) : prettyP ind (.arr []) = ['[', ']'] := by rw [prettyP]

theorem prettyP_obj_nil (ind : Nat) : prettyP ind (.obj []) = ['{', '}'] := by rw [prettyP]

theorem prettyP_arr_cons (ind : Nat) (a : Json) (t : List Json) :
    prettyP ind (.arr (a :: t)) =
      '[' :: '\n' ::
        (joinItems ((a :: t).map fun x => nspaces (ind + 2) ++ prettyP (ind + 2) x)
          ++ '\n' :: (nspaces ind ++ [']'])) := by
  rw [prettyP, List.attach_map_val (a :: t) (fun x => nspaces (ind + 2) ++ prettyP (ind + 2) x)]

theorem prettyP_obj_cons (ind : Nat) (a : List Char × Json) (t : List (List Char × Json)) :
    prettyP ind (.obj (a :: t)) =
      '{' :: '\n' ::
        (joinItems ((a :: t).map fun kv =>
            nspaces (ind + 2) ++ '"' :: (escape kv.1 ++ '"' :: ':' :: ' ' ::
              prettyP (ind + 2) kv.2))
          ++ '\n' :: (nspaces ind ++ ['}'])) := by
  rw [prettyP, List.attach_map_val (a :: t) (fun kv =>
    nspaces (ind + 2) ++ '"' :: (escape kv.1 ++ '"' :: ':' :: ' ' :: prettyP (ind + 2) kv.2))]

/-- Every printed value is non-empty and starts with a character that is
neither whitespace nor a closing bracket. -/
theorem prettyP_head (ind : Nat) (v : Json) :
    ∃ c t, prettyP ind v = c :: t ∧ isWs c = false ∧ c ≠ ']' ∧ c ≠ '}' := by
  cases v with
  | null => exact ⟨'n', _, prettyP_null ind, rfl, by decide, by decide⟩
  | bool b => cases b with
    | true => exact ⟨'t', _, prettyP_true ind, rfl, by decide, by decide⟩
    | false => exact ⟨'f', _, prettyP_false ind, rfl, by decide, by decide⟩
  | num n =>
    rw [prettyP_num]
    by_cases hn : n < 0
    · exact ⟨'-', _, by rw [intChars, if_pos hn], rfl, by decide, by decide⟩
    · obtain ⟨c, t, hct, hd⟩ := natChars_cons n.toNat
      exact ⟨c, t, by rw [intChars, if_neg hn, hct], isDigit_not_ws hd,
        isDigit_ne hd ']' rfl, isDigit_ne hd '}' rfl⟩
  | str s => exact ⟨'"', _, prettyP_str ind s, rfl, by decide, by decide⟩
  | arr l => cases l with
    | nil => exact ⟨'[', _, prettyP_arr_nil ind, rfl, by decide, by decide⟩
    | cons a t => exact ⟨'[', _, by rw [prettyP_arr_cons], rfl, by decide, by decide⟩
  | obj l => cases l with
    | nil => exact ⟨'{', _, prettyP_obj_nil ind, rfl, by decide, by decide⟩
    | cons a t => exact ⟨'{', _, by rw [prettyP_obj_cons], rfl, by decide, by decide⟩

/-! ## A structural induction principle for the nested `Json` type -/

theorem Json.induct {P : Json → Prop} (hnull : P .null) (hbool : ∀ b, P (.bool b))
    (hnum : ∀ n, P (.num n)) (hstr : ∀ s, P (.str s))
    (harr : ∀ l, (∀ x ∈ l, P x) → P (.arr l))
    (hobj : ∀ l, (∀ kv ∈ l, P kv.2) → P (.obj l)) : ∀ v, P v := by
  have H : ∀ n v, sizeOf v ≤ n → P v := by
    intro n
    induction n with
    | zero =>
      intro v hv
      exfalso
      cases v <;> simp only [Json.null.sizeOf_spec, Json.bool.sizeOf_spec, Json.num.sizeOf_spec,
        Json.str.sizeOf_spec, Json.arr.sizeOf_spec, Json.obj.sizeOf_spec] at hv <;> omega
    | succ n ih =>
      intro v hv
      cases v with
      | null => exact hnull
      | bool b => exact hbool b
      | num m => exact hnum m
      | str s => exact hstr s
      | arr l =>
        refine harr l (fun x hx => ih x ?_)
        have h1 := List.sizeOf_lt_of_mem hx
        simp only [Json.arr.sizeOf_spec] at hv
        omega
      | obj l =>
        refine hobj l (fun kv hkv => ih kv.2 ?_)
        have h1 := List.sizeOf_lt_of_mem hkv
        have h2 : sizeOf kv.2 < sizeOf kv := by
          obtain ⟨k, w⟩ := kv
          simp only [Prod.mk.sizeOf_spec]
          omega
        simp only [Json.obj.sizeOf_spec] at hv
        omega
  exact fun v => H (sizeOf v) v le_rfl

/-! ## Parser step lemmas -/

theorem parseF_val_skipWs (fuel : Nat) (s : List Char) :
    parseF (fuel + 1) .val s = parseF (fuel + 1) .val (skipWs s) := by
  show (match skipWs s with
    | [] => none
    | c :: r => _) = (match skipWs (skipWs s) with
    | [] => none
    | c :: r => _)
  rw [skipWs_idem]

theorem parseF_objFields_skipWs (fuel : Nat) (s : List Char) :
    parseF (fuel + 1) .objFields s = parseF (fuel + 1) .objFields (skipWs s) := by
  show (match skipWs s with
    | [] => none
    | c :: r => _) = (match skipWs (skipWs s) with
    | [] => none
    | c :: r => _)
  rw [skipWs_idem]

theorem parseF_step_null (f : Nat) (r : List Char) :
    parseF (f + 1) .val ('n' :: 'u' :: 'l' :: 'l' :: r) = some (.v .null, r) := rfl

theorem parseF_step_true (f : Nat) (r : List Char) :
    parseF (f + 1) .val ('t' :: 'r' :: 'u' :: 'e' :: r) = some (.v (.bool true), r) := rfl

theorem parseF_step_false (f : Nat) (r : List Char) :
    parseF (f + 1) .val ('f' :: 'a' :: 'l' :: 's' :: 'e' :: r) = some (.v (.bool false), r) := rfl

theorem parseF_step_quote (f : Nat) (r : List Char) :
    parseF (f + 1) .val ('"' :: r) =
      match parseStrBody r with
      | some (s2, r2) => some (.v (.str s2), r2)
      | none => none := rfl

theorem parseF_step_minus (f : Nat) (r : List Char) :
    parseF (f + 1) .val ('-' :: r) =
      if startsDigit r then
        some (.v (.num (-((parseNatAux 0 r).1 : Int))), (parseNatAux 0 r).2)
      else none := rfl

theorem parseF_step_lbracket (f : Nat) (r : List Char) :
    parseF (f + 1) .val ('[' :: r) =
      if headEq ']' (skipWs r) then some (.v (.arr []), (skipWs r).tail)
      else
        match parseF f .arrElems r with
        | some (.es l, r2) => some (.v (.arr l), r2)
        | _ => none := rfl

theorem parseF_step_lbrace (f : Nat) (r : List Char) :
    parseF (f + 1) .val ('{' :: r) =
      if headEq '}' (skipWs r) then some (.v (.obj []), (skipWs r).tail)
      else
        match parseF f .objFields r with
        | some (.fs l, r2) => some (.v (.obj l), r2)
        | _ => none := rfl

theorem parseF_step_digit (f : Nat) {c : Char} (r : List Char) (hc : c.isDigit = true) :
    parseF (f + 1) .val (c :: r) =
      some (.v (.num ((parseNatAux 0 (c :: r)).1 : Int)), (parseNatAux 0 (c :: r)).2) := by
  have hskip : skipWs (c :: r) = c :: r := skipWs_of_head r (isDigit_not_ws hc)
  show (match skipWs (c :: r) with
    | [] => none
    | c :: r => _) = _
  rw [hskip]
  simp only [hc, if_true]

/-! ## Parser completeness on printed output -/

/-- A value parses back from its printed form, under any leading whitespace,
any surrounding indentation, and any following text that does not start with a
digit. -/
def ParseOkV (v : Json) : Prop :=
  ∀ ind fuel W rest, (prettyP ind v).length + 1 ≤ fuel → wsOnly W → startsDigit rest = false →
    parseF fuel .val (W ++ (prettyP ind v ++ rest)) = some (.v v, rest)

theorem parseF_arrElems_unfold (f : Nat) (s : List Char) :
    parseF (f + 1) .arrElems s =
      match parseF f .val s with
      | some (.v j, r) =>
        (match skipWs r with
         | [] => none
         | c :: r2 =>
           if c = ',' then
             match parseF f .arrElems r2 with
             | some (.es l, r3) => some (.es (j :: l), r3)
             | _ => none
           else if c = ']' then some (.es [j], r2)
           else none)
      | _ => none := rfl

theorem parseF_val_ws (f : Nat) {W : List Char} (hW : wsOnly W) {c : Char}
    (hc : isWs c = false) (X : List Char) :
    parseF (f + 1) .val (W ++ c :: X) = parseF (f + 1) .val (c :: X) := by
  rw [parseF_val_skipWs, skipWs_append _ hW, skipWs_of_head _ hc]

theorem joinItems_cons_two (x y : List Char) (t : List (List Char)) :
    joinItems (x :: y :: t) = x ++ ',' :: '\n' :: joinItems (y :: t) := rfl

theorem startsDigit_ws_append {W : List Char} (hW : wsOnly W) {c : Char}
    (hc : c.isDigit = false) (X : List Char) : startsDigit (W ++ c :: X) = false := by
  cases W with
  | nil => simpa [startsDigit] using hc
  | cons w W' =>
    have : isWs w = true := hW w (List.mem_cons_self w W')
    simpa [startsDigit] using ws_not_digit this


theorem parse_elems : ∀ (l : List Json), l ≠ [] → (∀ x ∈ l, ParseOkV x) →
    ∀ ind fuel W1 W2 rest, wsOnly W1 → wsOnly W2 →
    (joinItems (l.map fun y => nspaces ind ++ prettyP ind y)).length + 2 ≤ fuel →
    parseF fuel .arrElems
        (W1 ++ (joinItems (l.map fun y => nspaces ind ++ prettyP ind y) ++ (W2 ++ ']' :: rest)))
      = some (.es l, rest) := by
  intro l
  induction l with
  | nil => intro h; exact absurd rfl h
  | cons x xs ih =>
    intro _ H ind fuel W1 W2 rest hW1 hW2 hfuel
    obtain ⟨f, rfl⟩ : ∃ f, fuel = f + 1 := ⟨fuel - 1, by omega⟩
    have hx : ParseOkV x := H x (List.mem_cons_self x xs)
    cases xs with
    | nil =>
      have hv := hx ind f (W1 ++ nspaces ind) (W2 ++ ']' :: rest)
        (by
          simp only [List.map_cons, List.map_nil, joinItems, List.length_append] at hfuel
          omega)
        (wsOnly_append hW1 (wsOnly_nspaces ind))
        (startsDigit_ws_append hW2 (by decide) rest)
      have hskip : skipWs (W2 ++ ']' :: rest) = ']' :: rest := by
        rw [skipWs_append _ hW2, skipWs_of_head _ (by decide)]
      rw [parseF_arrElems_unfold]
      simp only [List.map_cons, List.map_nil, joinItems]
      simp only [List.append_assoc] at hv ⊢
      rw [hv]
      simp [hskip]
    | cons y t =>
      have hlen : joinItems ((x :: y :: t).map fun z => nspaces ind ++ prettyP ind z)
          = (nspaces ind ++ prettyP ind x) ++ ',' :: '\n' ::
            joinItems ((y :: t).map fun z => nspaces ind ++ prettyP ind z) := by
        rw [List.map_cons, List.map_cons, joinItems_cons_two]
      have hv := hx ind f (W1 ++ nspaces ind)
        (',' :: '\n' :: (joinItems ((y :: t).map fun z => nspaces ind ++ prettyP ind z)
          ++ (W2 ++ ']' :: rest)))
        (by
          rw [hlen] at hfuel
          simp only [List.length_append, List.length_cons] at hfuel
          omega)
        (wsOnly_append hW1 (wsOnly_nspaces ind))
        (by simp [startsDigit])
      have hrec := ih (by simp) (fun z hz => H z (List.mem_cons_of_mem x hz)) ind f
        ['\n'] W2 rest
        (by intro c hc; obtain rfl := List.mem_singleton.1 hc; rfl) hW2
        (by
          rw [hlen] at hfuel
          obtain ⟨c0, t0, hct, -⟩ := prettyP_head ind x
          rw [hct] at hfuel
          simp only [List.length_append, List.length_cons] at hfuel ⊢
          omega)
      have hskip2 : skipWs (',' :: '\n' ::
          (joinItems ((y :: t).map fun z => nspaces ind ++ prettyP ind z)
            ++ (W2 ++ ']' :: rest)))
          = ',' :: '\n' :: (joinItems ((y :: t).map fun z => nspaces ind ++ prettyP ind z)
            ++ (W2 ++ ']' :: rest)) := skipWs_of_head _ (by decide)
      rw [parseF_arrElems_unfold, hlen]
      simp only [List.append_assoc, List.cons_append, List.nil_append, List.map_cons]
        at hv hrec hskip2 ⊢
      rw [hv]
      simp [hskip2, hrec]

theorem parseF_step_objQuote (f : Nat) (r : List Char) :
    parseF (f + 1) .objFields ('"' :: r) =
      match parseStrBody r with
      | some (k, r1) =>
        (match skipWs r1 with
         | [] => none
         | c1 :: r2 =>
           if c1 = ':' then
             match parseF f .val r2 with
             | some (.v j, r3) =>
               (match skipWs r3 with
                | [] => none
                | c2 :: r4 =>
                  if c2 = ',' then
                    match parseF f .objFields r4 with
                    | some (.fs l, r5) => some (.fs ((k, j) :: l), r5)
                    | _ => none
                  else if c2 = '}' then some (.fs [(k, j)], r4)
                  else none)
             | _ => none
           else none)
      | none => none := rfl

/-- Rendering of one object field at indentation `ind`, exactly as `prettyP`
lays it out. -/
def fieldItem (ind : Nat) (kv : List Char × Json) : List Char :=
  nspaces ind ++ '"' :: (escape kv.1 ++ '"' :: ':' :: ' ' :: prettyP ind kv.2)

theorem parse_fields : ∀ (l : List (List Char × Json)), l ≠ [] →
    (∀ kv ∈ l, ParseOkV kv.2) →
    ∀ ind fuel W1 W2 rest, wsOnly W1 → wsOnly W2 →
    (joinItems (l.map (fieldItem ind))).length + 2 ≤ fuel →
    parseF fuel .objFields
        (W1 ++ (joinItems (l.map (fieldItem ind)) ++ (W2 ++ '}' :: rest)))
      = some (.fs l, rest) := by
  intro l
  induction l with
  | nil => intro h; exact absurd rfl h
  | cons kv xs ih =>
    intro _ H ind fuel W1 W2 rest hW1 hW2 hfuel
    obtain ⟨f, rfl⟩ : ∃ f, fuel = f + 1 := ⟨fuel - 1, by omega⟩
    have hkv : ParseOkV kv.2 := H kv (List.mem_cons_self kv xs)
    cases xs with
    | nil =>
      have hv := hkv ind f [' '] (W2 ++ '}' :: rest)
        (by
          simp only [List.map_cons, List.map_nil, joinItems, fieldItem, List.length_append,
            List.length_cons] at hfuel
          omega)
        (by intro c hc; obtain rfl := List.mem_singleton.1 hc; rfl)
        (startsDigit_ws_append hW2 (by decide) rest)
      have hskip : skipWs (W2 ++ '}' :: rest) = '}' :: rest := by
        rw [skipWs_append _ hW2, skipWs_of_head _ (by decide)]
      rw [parseF_objFields_skipWs]
      simp only [List.map_cons, List.map_nil, joinItems, fieldItem]
      simp only [List.append_assoc, List.cons_append, List.singleton_append,
        List.nil_append] at hv ⊢
      rw [skipWs_append _ hW1, skipWs_append _ (wsOnly_nspaces ind),
        skipWs_of_head _ (by decide), parseF_step_objQuote, parseStrBody_escape]
      have hcolon : skipWs (':' :: ' ' :: (prettyP ind kv.2 ++ (W2 ++ '}' :: rest)))
          = ':' :: ' ' :: (prettyP ind kv.2 ++ (W2 ++ '}' :: rest)) :=
        skipWs_of_head _ (by decide)
      simp [hcolon, hv, hskip]
    | cons kv2 t =>
      have hlen : joinItems ((kv :: kv2 :: t).map (fieldItem ind))
          = fieldItem ind kv ++ ',' :: '\n' :: joinItems ((kv2 :: t).map (fieldItem ind)) := by
        rw [List.map_cons, List.map_cons, joinItems_cons_two]
      have hv := hkv ind f [' ']
        (',' :: '\n' :: (joinItems ((kv2 :: t).map (fieldItem ind)) ++ (W2 ++ '}' :: rest)))
        (by
          rw [hlen] at hfuel
          simp only [fieldItem, List.length_append, List.length_cons] at hfuel
          omega)
        (by intro c hc; obtain rfl := List.mem_singleton.1 hc; rfl)
        (by simp [startsDigit])
      have hrec := ih (by simp) (fun z hz => H z (List.mem_cons_of_mem kv hz)) ind f
        ['\n'] W2 rest
        (by intro c hc; obtain rfl := List.mem_singleton.1 hc; rfl) hW2
        (by
          rw [hlen] at hfuel
          simp only [fieldItem, List.length_append, List.length_cons] at hfuel ⊢
          omega)
      rw [parseF_objFields_skipWs, hlen]
      simp only [fieldItem, List.map_cons, List.append_assoc, List.cons_append,
        List.singleton_append, List.nil_append] at hv hrec ⊢
      rw [skipWs_append _ hW1, skipWs_append _ (wsOnly_nspaces ind),
        skipWs_of_head _ (by decide), parseF_step_objQuote, parseStrBody_escape]
      dsimp only
      rw [skipWs_of_head _ (show isWs ':' = false from rfl)]
      dsimp only
      rw [if_pos rfl, hv]
      dsimp only
      rw [skipWs_of_head _ (show isWs ',' = false from rfl)]
      dsimp only
      rw [if_pos rfl, hrec]

theorem skipWs_cons_ws {c : Char} (X : List Char) (h : isWs c = true) :
    skipWs (c :: X) = skipWs X := by
  simp [skipWs, h]

theorem joinItems_map_shape {α : Type} (item : α → List Char) (x : α) (xs : List α) :
    ∃ T, joinItems ((x :: xs).map item) = item x ++ T := by
  cases xs with
  | nil => exact ⟨[], by simp [joinItems]⟩
  | cons y t =>
    exact ⟨',' :: '\n' :: joinItems ((y :: t).map item),
      by rw [List.map_cons, List.map_cons, joinItems_cons_two]⟩

theorem skipWs_elemJoin_head (ind2 : Nat) (x : Json) (xs : List Json) (REST : List Char) :
    ∃ c t2, skipWs (joinItems ((x :: xs).map fun y => nspaces ind2 ++ prettyP ind2 y) ++ REST)
      = c :: t2 ∧ c ≠ ']' ∧ c ≠ '}' := by
  obtain ⟨T, hT⟩ := joinItems_map_shape (fun y => nspaces ind2 ++ prettyP ind2 y) x xs
  obtain ⟨c, t2, hct, hcw, h1, h2⟩ := prettyP_head ind2 x
  refine ⟨c, t2 ++ (T ++ REST), ?_, h1, h2⟩
  rw [hT]
  simp only [List.append_assoc]
  rw [skipWs_append _ (wsOnly_nspaces ind2), hct, List.cons_append,
    skipWs_of_head _ hcw]

theorem skipWs_fieldJoin_head (ind2 : Nat) (kv : List Char × Json)
    (xs : List (List Char × Json)) (REST : List Char) :
    ∃ t2, skipWs (joinItems ((kv :: xs).map (fieldItem ind2)) ++ REST) = '"' :: t2 := by
  obtain ⟨T, hT⟩ := joinItems_map_shape (fieldItem ind2) kv xs
  refine ⟨escape kv.1 ++ '"' :: ':' :: ' ' :: (prettyP ind2 kv.2 ++ (T ++ REST)), ?_⟩
  rw [hT, show fieldItem ind2 kv
      = nspaces ind2 ++ '"' :: (escape kv.1 ++ '"' :: ':' :: ' ' :: prettyP ind2 kv.2) from rfl]
  simp only [List.append_assoc, List.cons_append]
  rw [skipWs_append _ (wsOnly_nspaces ind2), skipWs_of_head _ (show isWs '"' = false from rfl)]

/-- Completeness of the parser on the printer's output: every value is read
back from its pretty-printed form. -/
theorem parse_pretty_val : ∀ v : Json, ParseOkV v := by
  intro v
  induction v using Json.induct with
  | hnull =>
    intro ind fuel W rest hfuel hW hrest
    obtain ⟨f, rfl⟩ : ∃ f, fuel = f + 1 := ⟨fuel - 1, by omega⟩
    rw [prettyP_null, show ("null".data ++ rest) = 'n' :: 'u' :: 'l' :: 'l' :: rest from rfl,
      parseF_val_ws f hW (show isWs 'n' = false from rfl), parseF_step_null]
  | hbool b =>
    intro ind fuel W rest hfuel hW hrest
    obtain ⟨f, rfl⟩ : ∃ f, fuel = f + 1 := ⟨fuel - 1, by omega⟩
    cases b with
    | true =>
      rw [prettyP_true, show ("true".data ++ rest) = 't' :: 'r' :: 'u' :: 'e' :: rest from rfl,
        parseF_val_ws f hW (show isWs 't' = false from rfl), parseF_step_true]
    | false =>
      rw [prettyP_false,
        show ("false".data ++ rest) = 'f' :: 'a' :: 'l' :: 's' :: 'e' :: rest from rfl,
        parseF_val_ws f hW (show isWs 'f' = false from rfl), parseF_step_false]
  | hnum n =>
    intro ind fuel W rest hfuel hW hrest
    obtain ⟨f, rfl⟩ : ∃ f, fuel = f + 1 := ⟨fuel - 1, by omega⟩
    rw [prettyP_num]
    by_cases hn : n < 0
    · rw [intChars, if_pos hn, List.cons_append,
        parseF_val_ws f hW (show isWs '-' = false from rfl), parseF_step_minus]
      have hsd : startsDigit (natChars n.natAbs ++ rest) = true := by
        obtain ⟨c, t, hct, hd⟩ := natChars_cons n.natAbs
        rw [hct]
        simpa [startsDigit] using hd
      rw [hsd, if_pos rfl, parse_natChars n.natAbs hrest]
      dsimp only
      rw [show -((n.natAbs : Int)) = n by omega]
    · obtain ⟨c, t, hct, hd⟩ := natChars_cons n.toNat
      rw [intChars, if_neg hn, hct, List.cons_append,
        parseF_val_ws f hW (isDigit_not_ws hd), parseF_step_digit f _ hd,
        ← List.cons_append, ← hct, parse_natChars n.toNat hrest]
      dsimp only
      rw [show ((n.toNat : Nat) : Int) = n by omega]
  | hstr s =>
    intro ind fuel W rest hfuel hW hrest
    obtain ⟨f, rfl⟩ : ∃ f, fuel = f + 1 := ⟨fuel - 1, by omega⟩
    rw [prettyP_str, List.cons_append,
      parseF_val_ws f hW (show isWs '"' = false from rfl), parseF_step_quote,
      List.append_assoc, List.singleton_append, parseStrBody_escape]
  | harr l hl =>
    intro ind fuel W rest hfuel hW hrest
    obtain ⟨f, rfl⟩ : ∃ f, fuel = f + 1 := ⟨fuel - 1, by omega⟩
    cases l with
    | nil =>
      rw [prettyP_arr_nil, show (['[', ']'] ++ rest) = '[' :: ']' :: rest from rfl,
        parseF_val_ws f hW (show isWs '[' = false from rfl), parseF_step_lbracket,
        skipWs_of_head _ (show isWs ']' = false from rfl)]
      rw [if_pos (show headEq ']' (']' :: rest) = true from rfl)]
      rfl
    | cons a t =>
      rw [prettyP_arr_cons] at hfuel ⊢
      simp only [List.cons_append, List.append_assoc, List.singleton_append,
        List.nil_append] at hfuel ⊢
      rw [parseF_val_ws f hW (show isWs '[' = false from rfl), parseF_step_lbracket]
      obtain ⟨c0, t0, hct0, h1, h2⟩ := skipWs_elemJoin_head (ind + 2) a t
        ('\n' :: (nspaces ind ++ ']' :: rest))
      have hfalse : headEq ']' (skipWs ('\n' ::
          (joinItems ((a :: t).map fun x => nspaces (ind + 2) ++ prettyP (ind + 2) x)
            ++ '\n' :: (nspaces ind ++ ']' :: rest)))) = false := by
        rw [skipWs_cons_ws _ (show isWs '\n' = true from rfl), hct0]
        simp [headEq, h1]
      rw [hfalse, if_neg (by decide)]
      have helems := parse_elems (a :: t) (by simp) hl (ind + 2) f ['\n']
        ('\n' :: nspaces ind) rest
        (by intro c hc; obtain rfl := List.mem_singleton.1 hc; rfl)
        (wsOnly_cons (show isWs '\n' = true from rfl) (wsOnly_nspaces ind))
        (by
          simp only [List.length_cons, List.length_append] at hfuel ⊢
          omega)
      simp only [List.append_assoc, List.cons_append, List.singleton_append,
        List.nil_append] at helems
      rw [helems]
  | hobj l hl =>
    intro ind fuel W rest hfuel hW hrest
    obtain ⟨f, rfl⟩ : ∃ f, fuel = f + 1 := ⟨fuel - 1, by omega⟩
    cases l with
    | nil =>
      rw [prettyP_obj_nil, show (['{', '}'] ++ rest) = '{' :: '}' :: rest from rfl,
        parseF_val_ws f hW (show isWs '{' = false from rfl), parseF_step_lbrace,
        skipWs_of_head _ (show isWs '}' = false from rfl)]
      rw [if_pos (show headEq '}' ('}' :: rest) = true from rfl)]
      rfl
    | cons a t =>
      rw [prettyP_obj_cons] at hfuel ⊢
      rw [show (fun kv => nspaces (ind + 2) ++ '"' :: (escape kv.1 ++ '"' :: ':' :: ' ' ::
          prettyP (ind + 2) kv.2)) = fieldItem (ind + 2) from rfl] at hfuel ⊢
      simp only [List.cons_append, List.append_assoc, List.singleton_append,
        List.nil_append] at hfuel ⊢
      rw [parseF_val_ws f hW (show isWs '{' = false from rfl), parseF_step_lbrace]
      obtain ⟨t0, hct0⟩ := skipWs_fieldJoin_head (ind + 2) a t
        ('\n' :: (nspaces ind ++ '}' :: rest))
      have hfalse : headEq '}' (skipWs ('\n' ::
          (joinItems ((a :: t).map (fieldItem (ind + 2)))
            ++ '\n' :: (nspaces ind ++ '}' :: rest)))) = false := by
        rw [skipWs_cons_ws _ (show isWs '\n' = true from rfl), hct0]
        simp [headEq]
      rw [hfalse, if_neg (by decide)]
      have hflds := parse_fields (a :: t) (by simp) hl (ind + 2) f ['\n']
        ('\n' :: nspaces ind) rest
        (by intro c hc; obtain rfl := List.mem_singleton.1 hc; rfl)
        (wsOnly_cons (show isWs '\n' = true from rfl) (wsOnly_nspaces ind))
        (by
          simp only [List.length_cons, List.length_append] at hfuel ⊢
          omega)
      simp only [List.append_assoc, List.cons_append, List.singleton_append,
        List.nil_append] at hflds
      rw [hflds]

/-- The round trip at the heart of the spec: `JSON.parse` applied to
`JSON.stringify(v, null, 2)` returns `v` itself. -/
theorem jsonParse_stringify (v : Json) : jsonParse (jsonStringify v) = some v := by
  have h := parse_pretty_val v 0 ((prettyP 0 v).length + 1) [] [] le_rfl wsOnly_nil rfl
  rw [List.nil_append, List.append_nil] at h
  rw [jsonParse, jsonStringify, h]
  rfl

/-! ## The `DesignSpec` data model of `src/services/gemini.ts` -/

/-- Mirrors the `colorScheme` field of the `DesignSpec` interface. -/
structure ColorScheme where
  primary : List Char
  secondary : List Char
  accent : List Char
  background : List Char
  text : List Char

/-- Mirrors the `typography` field of the `DesignSpec` interface. -/
structure Typography where
  headingFont : List Char
  bodyFont : List Char

/-- Mirrors the recursively nested `Component` interface: a type tag, a name,
a free-form property record, and optional children. -/
inductive Component where
  | mk : (type : List Char) → (name : List Char) → (props : List (List Char × Json)) →
      (children : Option (List Component)) → Component

/-- Mirrors the `Section` interface of the layout. -/
structure Section where
  name : List Char
  type : List Char
  content : List Char
  children : Option (List Component)

/-- Mirrors the `layout` field of the `DesignSpec` interface. -/
structure Layout where
  type : List Char
  sections : List Section

/-- Mirrors the `DesignSpec` interface of `src/services/gemini.ts`. -/
structure DesignSpec where
  name : List Char
  description : List Char
  layout : Layout
  colorScheme : ColorScheme
  typography : Typography
  components : List Component

/-- The JSON tree of a runtime `Component` object, with fields in declaration
order; an absent optional `children` is omitted, as `JSON.stringify` omits
`undefined` properties. -/
def componentToJson : Component → Json
  | .mk type name props none =>
    .obj [("type".data, .str type), ("name".data, .str name), ("props".data, .obj props)]
  | .mk type name props (some cs) =>
    .obj [("type".data, .str type), ("name".data, .str name), ("props".data, .obj props),
      ("children".data, .arr (cs.attach.map fun c => componentToJson c.1))]
termination_by c => sizeOf c
decreasing_by
  have h1 := List.sizeOf_lt_of_mem c.2
  simp only [Component.mk.sizeOf_spec, Option.some.sizeOf_spec]
  omega

/-- The JSON tree of a runtime `Section` object. -/
def sectionToJson (s : Section) : Json :=
  .obj ([("name".data, .str s.name), ("type".data, .str s.type),
    ("content".data, .str s.content)] ++
    match s.children with
    | none => []
    | some cs => [("children".data, .arr (cs.map componentToJson))])

/-- The JSON tree of a runtime `DesignSpec` object, with fields in the
declaration order of the interface. -/
def designSpecToJson (d : DesignSpec) : Json :=
  .obj [("name".data, .str d.name),
    ("description".data, .str d.description),
    ("layout".data, .obj [("type".data, .str d.layout.type),
      ("sections".data, .arr (d.layout.sections.map sectionToJson))]),
    ("colorScheme".data, .obj [("primary".data, .str d.colorScheme.primary),
      ("secondary".data, .str d.colorScheme.secondary),
      ("accent".data, .str d.colorScheme.accent),
      ("background".data, .str d.colorScheme.background),
      ("text".data, .str d.colorScheme.text)]),
    ("typography".data, .obj [("headingFont".data, .str d.typography.headingFont),
      ("bodyFont".data, .str d.typography.bodyFont)]),
    ("components".data, .arr (d.components.map componentToJson))]

/-! ## Brace-match JSON extraction

The five service methods extract JSON from a free-form response with the
regular expression match `response.match` against the greedy pattern
"open brace, any characters, close brace": the match, when it exists, runs
from the first open brace that has some later close brace through the last
close brace of the whole text. -/

/-- The prefix of the input up to and including its last close brace, when
one exists: this is how far the greedy quantifier reaches. -/
def upToLastClose : List Char → Option (List Char)
  | [] => none
  | c :: r =>
    match upToLastClose r with
    | some t => some (c :: t)
    | none => if c = '}' then some [c] else none

/-- The brace-match extraction used in `generateDesign`, `analyzeImage`,
`refineDesign`, `generateCode` and `addFeature`: scan for the leftmost
position at which the greedy pattern matches, and take the longest match
there. -/
def extractJson : List Char → Option (List Char)
  | [] => none
  | c :: r =>
    if c = '{' then
      match upToLastClose r with
      | some t => some ('{' :: t)
      | none => extractJson r
    else extractJson r

/-- The message of the exception `JSON.parse` raises on malformed input,
which the service methods do not catch. -/
def jsonSyntaxError : String := "SyntaxError: Unexpected token in JSON"

/-- Shared response handling of the five service methods: take the greedy
brace span and `JSON.parse` it.  A missing span raises the method's own
context message; a parse failure propagates the `JSON.parse` SyntaxError. -/
def extractAndParse (errMsg : String) (s : List Char) : Except String Json :=
  match extractJson s with
  | none => .error errMsg
  | some j =>
    match jsonParse j with
    | some v => .ok v
    | none => .error jsonSyntaxError

/-- Response handling of `GeminiService.generateDesign`. -/
def parseDesignResponse : List Char → Except String Json :=
  extractAndParse "Failed to parse design specification from Gemini response"

/-- Response handling of `GeminiService.analyzeImage`. -/
def parseImageResponse : List Char → Except String Json :=
  extractAndParse "Failed to parse design from image"

/-- Response handling of `GeminiService.refineDesign`. -/
def parseRefineResponse : List Char → Except String Json :=
  extractAndParse "Failed to parse refined design"

/-- Response handling of `ClaudeService.generateCode`. -/
def parseCodeResponse : List Char → Except String Json :=
  extractAndParse "Failed to parse code from Claude response"

/-- Response handling of `ClaudeService.addFeature`. -/
def parseFeatureResponse : List Char → Except String Json :=
  extractAndParse "Failed to parse feature addition response"

/-! ## Extraction lemmas -/

theorem upToLastClose_no_close : ∀ q : List Char, '}' ∉ q → upToLastClose q = none := by
  intro q
  induction q with
  | nil => intro _; rfl
  | cons c r ih =>
    intro h
    have hc : c ≠ '}' := fun he => h (he ▸ List.mem_cons_self c r)
    have hr : '}' ∉ r := fun hm => h (List.mem_cons_of_mem c hm)
    simp [upToLastClose, ih hr, hc]

theorem upToLastClose_split : ∀ (m q : List Char), '}' ∉ q →
    upToLastClose (m ++ '}' :: q) = some (m ++ ['}']) := by
  intro m
  induction m with
  | nil =>
    intro q hq
    simp [upToLastClose, upToLastClose_no_close q hq]
  | cons c m' ih =>
    intro q hq
    simp [upToLastClose, ih q hq]

theorem extractJson_decomp (p m q : List Char) (hp : '{' ∉ p) (hq : '}' ∉ q) :
    extractJson (p ++ '{' :: (m ++ '}' :: q)) = some ('{' :: (m ++ ['}'])) := by
  induction p with
  | nil =>
    simp [extractJson, upToLastClose_split m q hq]
  | cons c p' ih =>
    have hc : c ≠ '{' := fun he => hp (he ▸ List.mem_cons_self c p')
    have hp' : '{' ∉ p' := fun hm => hp (List.mem_cons_of_mem c hm)
    simp [extractJson, hc, ih hp']

theorem upToLastClose_some : ∀ (r t : List Char), upToLastClose r = some t →
    ∃ b c, r = b ++ '}' :: c := by
  intro r
  induction r with
  | nil => intro t h; cases h
  | cons c r' ih =>
    intro t h
    rw [upToLastClose] at h
    cases hu : upToLastClose r' with
    | some u =>
      obtain ⟨b, c0, hb⟩ := ih u hu
      exact ⟨c :: b, c0, by rw [hb]; rfl⟩
    | none =>
      rw [hu] at h
      by_cases hc : c = '}'
      · exact ⟨[], r', by rw [hc]; rfl⟩
      · simp [hc] at h

theorem extractJson_some_decomp : ∀ (s t : List Char), extractJson s = some t →
    ∃ a b c, s = a ++ '{' :: (b ++ '}' :: c) := by
  intro s
  induction s with
  | nil => intro t h; cases h
  | cons c r ih =>
    intro t h
    rw [extractJson] at h
    by_cases hc : c = '{'
    · rw [if_pos hc] at h
      cases hu : upToLastClose r with
      | some u =>
        obtain ⟨b, c0, hb⟩ := upToLastClose_some r u hu
        exact ⟨[], b, c0, by rw [hb, hc]; rfl⟩
      | none =>
        rw [hu] at h
        obtain ⟨a, b, c0, hb⟩ := ih t h
        exact ⟨c :: a, b, c0, by rw [hb]; rfl⟩
    · rw [if_neg hc] at h
      obtain ⟨a, b, c0, hb⟩ := ih t h
      exact ⟨c :: a, b, c0, by rw [hb]; rfl⟩

theorem extractJson_none_of_no_span (s : List Char)
    (h : ¬ ∃ a b c, s = a ++ '{' :: (b ++ '}' :: c)) : extractJson s = none := by
  cases he : extractJson s with
  | none => rfl
  | some t => exact absurd (extractJson_some_decomp s t he) h

/-! ## Filesystem model and the writers of `src/utils/file.ts` -/

/-- A filesystem snapshot: file contents and directory existence, both total
maps over paths represented as segment lists (the JS path string `a/b/c.ts`
is embedded as `["a","b","c.ts"]`). -/
structure FS where
  files : List String → Option String
  dirs : List String → Bool

/-- `fs.writeFileSync`: create or overwrite the file, unconditionally. -/
def writeFileFS (fs : FS) (p : List String) (c : String) : FS :=
  { fs with files := fun q => if q = p then some c else fs.files q }

/-- The non-empty prefixes of a path: the chain of directories that
`fs.mkdirSync(d, recursive: true)` creates. -/
def dirChain (d : List String) : List (List String) :=
  (List.range d.length).map (fun k => d.take (k + 1))

/-- `fs.mkdirSync(d, recursive: true)`: mark `d` and all its ancestors
as existing. -/
def mkdirRecFS (fs : FS) (d : List String) : FS :=
  { fs with dirs := fun x => fs.dirs x || decide (x ∈ dirChain d) }

/-- The `if (!fs.existsSync(d)) fs.mkdirSync(d, recursive: true)` pattern
used throughout `src/utils/file.ts`. -/
def ensureDirFS (fs : FS) (d : List String) : FS :=
  if fs.dirs d then fs else mkdirRecFS fs d

/-- Mirrors the `CodeFile` interface of `src/services/claude.ts`. -/
structure CodeFile where
  path : List String
  content : String
  language : String

/-- Mirrors the `GeneratedCode` interface of `src/services/claude.ts`. -/
structure GeneratedCode where
  files : List CodeFile
  instructions : String

/-- Filesystem plus a log of the writes performed, in order, so that "writes
this content at this path" is statable independently of later overwrites. -/
structure SaveM where
  fs : FS
  log : List (List String × String)

/-- A logged `writeFileSync`. -/
def writeLog (s : SaveM) (p : List String) (c : String) : SaveM :=
  ⟨writeFileFS s.fs p c, s.log ++ [(p, c)]⟩

/-- A directory-ensure step (no file write, nothing logged). -/
def ensureDirM (s : SaveM) (d : List String) : SaveM :=
  ⟨ensureDirFS s.fs d, s.log⟩

/-- The per-file loop of `saveOutput`: join the output directory with the
file's relative path, create the containing directory if missing, and write
the content. -/
def saveFilesLoop (out : List String) : List CodeFile → SaveM → SaveM
  | [], s => s
  | f :: rest, s =>
    saveFilesLoop out rest
      (writeLog (ensureDirM s ((out ++ f.path).dropLast)) (out ++ f.path) f.content)

/-- `saveOutput` of `src/utils/file.ts` (`src/unnamed/part_001`): create the
output directory, write every listed file, then, when the instructions string
is truthy (non-empty), write `SETUP.md` with a fixed header prepended. -/
def saveOutput (code : GeneratedCode) (out : List String) (s : SaveM) : SaveM :=
  let s1 := ensureDirM s out
  let s2 := saveFilesLoop out code.files s1
  if code.instructions ≠ "" then
    writeLog s2 (out ++ ["SETUP.md"]) ("# Setup Instructions\n\n" ++ code.instructions)
  else s2

/-- `saveJson` of `src/utils/file.ts`: create the parent directory and write
`JSON.stringify(data, null, 2)`. -/
def saveJson (data : Json) (filePath : List String) (fs : FS) : FS :=
  writeFileFS (ensureDirFS fs filePath.dropLast) filePath (String.mk (jsonStringify data))

/-- `readFile` of `src/utils/file.ts`: error when the path is missing. -/
def readFileFS (fs : FS) (filePath : List String) : Except String String :=
  match fs.files filePath with
  | some c => .ok c
  | none => .error ("File not found: " ++ String.intercalate "/" filePath)

/-- The reload path of `design refine` and `code generate`: read the saved
spec file and `JSON.parse` its contents (no brace extraction on this path). -/
def loadJsonFile (fs : FS) (filePath : List String) : Option Json :=
  match readFileFS fs filePath with
  | .ok c => jsonParse c.data
  | .error _ => none

/-- The content the writes of `saveOutput` leave at `p`: the last listed file
whose joined path is `p`, superseded by the setup document when that is
written to `p`. -/
def lastWriteInFiles (out p : List String) : List CodeFile → Option String
  | [] => none
  | f :: rest =>
    match lastWriteInFiles out p rest with
    | some c => some c
    | none => if out ++ f.path = p then some f.content else none

/-- The final content `saveOutput` itself determines at `p` (`none` when `p`
is untouched and keeps its prior content). -/
def lastWriteAll (code : GeneratedCode) (out p : List String) : Option String :=
  if code.instructions ≠ "" ∧ p = out ++ ["SETUP.md"] then
    some ("# Setup Instructions\n\n" ++ code.instructions)
  else lastWriteInFiles out p code.files

/-- Downward closure of directory existence: a real filesystem cannot contain
a directory without its ancestors. -/
def DirsDown (fs : FS) : Prop :=
  ∀ x y : List String, x ≠ [] → (∃ t, x ++ t = y) → fs.dirs y = true → fs.dirs x = true

/-! ### Filesystem lemmas -/

theorem ensureDirFS_files (fs : FS) (d : List String) :
    (ensureDirFS fs d).files = fs.files := by
  unfold ensureDirFS mkdirRecFS
  by_cases h : fs.dirs d <;> simp [h]

theorem writeFileFS_dirs (fs : FS) (p : List String) (c : String) :
    (writeFileFS fs p c).dirs = fs.dirs := rfl

theorem take_mem_dirChain (d : List String) (n : Nat) (h1 : 1 ≤ n) (h2 : n ≤ d.length) :
    d.take n ∈ dirChain d := by
  rw [dirChain, List.mem_map]
  exact ⟨n - 1, List.mem_range.2 (by omega), by congr 1; omega⟩

theorem split_of_take {x t d : List String} {m : Nat} (h : x ++ t = d.take m) :
    x = d.take x.length ∧ x.length ≤ d.length := by
  have h1 : x = (d.take m).take x.length := by
    rw [← h, List.take_left]
  have h2 : x.length ≤ (d.take m).length := by
    rw [← h, List.length_append]; omega
  rw [List.length_take] at h2
  constructor
  · rw [List.take_take, min_def, if_pos (by omega)] at h1
    exact h1
  · omega

theorem mkdirRecFS_dirs_self (fs : FS) (d : List String) (hd : d ≠ []) :
    (mkdirRecFS fs d).dirs d = true := by
  have hm : d ∈ dirChain d := by
    have h1 : 1 ≤ d.length := by
      cases d with
      | nil => exact absurd rfl hd
      | cons a t => simp
    have h2 := take_mem_dirChain d d.length h1 le_rfl
    rwa [List.take_length] at h2
  simp [mkdirRecFS, hm]

theorem ensureDirFS_dirs_self (fs : FS) (d : List String) (hd : d ≠ []) :
    (ensureDirFS fs d).dirs d = true := by
  unfold ensureDirFS
  by_cases h : fs.dirs d = true
  · rw [if_pos h]; exact h
  · rw [if_neg (by simpa using h)]
    exact mkdirRecFS_dirs_self fs d hd

theorem ensureDirFS_dirs_mono (fs : FS) (d x : List String) (h : fs.dirs x = true) :
    (ensureDirFS fs d).dirs x = true := by
  unfold ensureDirFS mkdirRecFS
  by_cases hc : fs.dirs d <;> simp [hc, h]

theorem ensureDirFS_dirs_of_split (fs : FS) (d : List String) (hdc : DirsDown fs)
    (x : List String) (hx : x ≠ []) (hsplit : ∃ t, x ++ t = d) :
    (ensureDirFS fs d).dirs x = true := by
  unfold ensureDirFS
  by_cases h : fs.dirs d = true
  · rw [if_pos h]
    exact hdc x d hx hsplit h
  · rw [if_neg (by simpa using h)]
    obtain ⟨t, ht⟩ := hsplit
    have ht' : x ++ t = d.take d.length := by rw [List.take_length]; exact ht
    obtain ⟨he, hle⟩ := split_of_take ht'
    have hm : x ∈ dirChain d := by
      rw [he]
      exact take_mem_dirChain d x.length
        (by cases x with
          | nil => exact absurd rfl hx
          | cons a t2 => simp) hle
    simp [mkdirRecFS, hm]

theorem DirsDown_mkdirRecFS (fs : FS) (d : List String) (h : DirsDown fs) :
    DirsDown (mkdirRecFS fs d) := by
  intro x y hx hsplit hy
  simp only [mkdirRecFS, Bool.or_eq_true, decide_eq_true_iff] at hy ⊢
  rcases hy with hy | hy
  · exact Or.inl (h x y hx hsplit hy)
  · right
    rw [dirChain, List.mem_map] at hy
    obtain ⟨k, hk, he⟩ := hy
    obtain ⟨t, ht⟩ := hsplit
    have : x ++ t = d.take (k + 1) := by rw [ht, ← he]
    obtain ⟨hxe, hxle⟩ := split_of_take this
    rw [hxe]
    exact take_mem_dirChain d x.length
      (by cases x with
        | nil => exact absurd rfl hx
        | cons a t2 => simp) hxle

theorem DirsDown_ensureDirFS (fs : FS) (d : List String) (h : DirsDown fs) :
    DirsDown (ensureDirFS fs d) := by
  unfold ensureDirFS
  by_cases hc : fs.dirs d <;> simp [hc]
  · exact h
  · exact DirsDown_mkdirRecFS fs d h

theorem DirsDown_writeFileFS (fs : FS) (p : List String) (c : String) (h : DirsDown fs) :
    DirsDown (writeFileFS fs p c) := h

theorem saveFilesLoop_files (out : List String) : ∀ (l : List CodeFile) (s : SaveM)
    (p : List String),
    (saveFilesLoop out l s).fs.files p =
      match lastWriteInFiles out p l with
      | some c => some c
      | none => s.fs.files p := by
  intro l
  induction l with
  | nil => intro s p; rfl
  | cons f rest ih =>
    intro s p
    rw [saveFilesLoop, ih]
    have hstep : (writeLog (ensureDirM s ((out ++ f.path).dropLast)) (out ++ f.path)
        f.content).fs.files p
        = if p = out ++ f.path then some f.content else s.fs.files p := by
      show (writeFileFS (ensureDirFS s.fs ((out ++ f.path).dropLast)) (out ++ f.path)
        f.content).files p = _
      unfold writeFileFS
      by_cases hp : p = out ++ f.path
      · simp [hp]
      · simp only [hp, if_false]
        rw [show (ensureDirFS s.fs ((out ++ f.path).dropLast)).files
            = s.fs.files from ensureDirFS_files _ _]
    rw [lastWriteInFiles]
    cases hlw : lastWriteInFiles out p rest with
    | some c => rfl
    | none =>
      rw [hstep]
      by_cases hp : out ++ f.path = p
      · rw [if_pos hp, if_pos hp.symm]
      · have hp2 : ¬ (p = out ++ f.path) := fun h => hp h.symm
        rw [if_neg hp, if_neg hp2]

theorem saveFilesLoop_log (out : List String) : ∀ (l : List CodeFile) (s : SaveM),
    (saveFilesLoop out l s).log = s.log ++ l.map (fun f => (out ++ f.path, f.content)) := by
  intro l
  induction l with
  | nil => intro s; simp [saveFilesLoop]
  | cons f rest ih =>
    intro s
    rw [saveFilesLoop, ih]
    simp [writeLog, ensureDirM]

theorem saveFilesLoop_dirs_mono (out : List String) : ∀ (l : List CodeFile) (s : SaveM)
    (x : List String), s.fs.dirs x = true → (saveFilesLoop out l s).fs.dirs x = true := by
  intro l
  induction l with
  | nil => intro s x h; exact h
  | cons f rest ih =>
    intro s x h
    rw [saveFilesLoop]
    refine ih _ x ?_
    show (writeFileFS (ensureDirFS s.fs _) _ _).dirs x = true
    rw [writeFileFS_dirs]
    exact ensureDirFS_dirs_mono _ _ _ h

theorem saveFilesLoop_DirsDown (out : List String) : ∀ (l : List CodeFile) (s : SaveM),
    DirsDown s.fs → DirsDown (saveFilesLoop out l s).fs := by
  intro l
  induction l with
  | nil => intro s h; exact h
  | cons f rest ih =>
    intro s h
    rw [saveFilesLoop]
    refine ih _ ?_
    show DirsDown (writeFileFS (ensureDirFS s.fs _) _ _)
    exact DirsDown_writeFileFS _ _ _ (DirsDown_ensureDirFS _ _ h)

theorem saveFilesLoop_dirs_split (out : List String) : ∀ (l : List CodeFile) (s : SaveM),
    DirsDown s.fs → ∀ f ∈ l, ∀ x : List String, x ≠ [] →
    (∃ t, x ++ t = (out ++ f.path).dropLast) →
    (saveFilesLoop out l s).fs.dirs x = true := by
  intro l
  induction l with
  | nil => intro s _ f hf; cases hf
  | cons f rest ih =>
    intro s hdc g hg x hx hsplit
    rw [saveFilesLoop]
    rcases List.mem_cons.1 hg with he | hm
    · subst he
      refine saveFilesLoop_dirs_mono out rest _ x ?_
      show (writeFileFS (ensureDirFS s.fs _) _ _).dirs x = true
      rw [writeFileFS_dirs]
      exact ensureDirFS_dirs_of_split s.fs _ hdc x hx hsplit
    · refine ih _ ?_ g hm x hx hsplit
      show DirsDown (writeFileFS (ensureDirFS s.fs _) _ _)
      exact DirsDown_writeFileFS _ _ _ (DirsDown_ensureDirFS _ _ hdc)

theorem saveFilesLoop_dirs_self (out : List String) : ∀ (l : List CodeFile) (s : SaveM),
    ∀ f ∈ l, (saveFilesLoop out l s).fs.dirs ((out ++ f.path).dropLast) = true ∨
      (out ++ f.path).dropLast = [] := by
  intro l
  induction l with
  | nil => intro s f hf; cases hf
  | cons f rest ih =>
    intro s g hg
    rw [saveFilesLoop]
    rcases List.mem_cons.1 hg with he | hm
    · subst he
      by_cases hd : (out ++ g.path).dropLast = []
      · exact Or.inr hd
      · refine Or.inl (saveFilesLoop_dirs_mono out rest _ _ ?_)
        show (writeFileFS (ensureDirFS s.fs _) _ _).dirs _ = true
        rw [writeFileFS_dirs]
        exact ensureDirFS_dirs_self s.fs _ hd
    · exact ih _ g hm

theorem mkdirRecFS_nil_dirs (fs : FS) (x : List String) :
    (mkdirRecFS fs []).dirs x = fs.dirs x := by
  simp [mkdirRecFS, dirChain]

theorem ensureDirFS_dirs_noop (fs : FS) (d : List String)
    (h : fs.dirs d = true ∨ d = []) (x : List String) :
    (ensureDirFS fs d).dirs x = fs.dirs x := by
  rcases h with h | h
  · rw [ensureDirFS, if_pos h]
  · subst h
    unfold ensureDirFS
    by_cases hc : fs.dirs [] = true
    · rw [if_pos hc]
    · rw [if_neg (by simpa using hc)]
      exact mkdirRecFS_nil_dirs fs x

theorem saveFilesLoop_dirs_noop (out : List String) : ∀ (l : List CodeFile) (s : SaveM),
    (∀ f ∈ l, s.fs.dirs ((out ++ f.path).dropLast) = true ∨ (out ++ f.path).dropLast = []) →
    ∀ x, (saveFilesLoop out l s).fs.dirs x = s.fs.dirs x := by
  intro l
  induction l with
  | nil => intro s _ x; rfl
  | cons f rest ih =>
    intro s h x
    have hf := h f (List.mem_cons_self f rest)
    have hdirs : ∀ y, (writeLog (ensureDirM s ((out ++ f.path).dropLast)) (out ++ f.path)
        f.content).fs.dirs y = s.fs.dirs y := by
      intro y
      show (writeFileFS (ensureDirFS s.fs _) _ _).dirs y = _
      rw [writeFileFS_dirs]
      exact ensureDirFS_dirs_noop s.fs _ hf y
    rw [saveFilesLoop, ih _ (fun g hg => by
      rw [hdirs]
      exact h g (List.mem_cons_of_mem f hg)) x, hdirs x]

theorem saveOutput_files (code : GeneratedCode) (out : List String) (s : SaveM)
    (p : List String) :
    (saveOutput code out s).fs.files p =
      match lastWriteAll code out p with
      | some c => some c
      | none => s.fs.files p := by
  unfold saveOutput lastWriteAll
  have hbase : (saveFilesLoop out code.files (ensureDirM s out)).fs.files p
      = match lastWriteInFiles out p code.files with
        | some c => some c
        | none => s.fs.files p := by
    rw [saveFilesLoop_files]
    cases lastWriteInFiles out p code.files with
    | some c => rfl
    | none =>
      show (ensureDirFS s.fs out).files p = s.fs.files p
      rw [ensureDirFS_files]
  by_cases hi : code.instructions ≠ ""
  · rw [if_pos hi]
    by_cases hp : p = out ++ ["SETUP.md"]
    · show (writeFileFS _ _ _).files p = _
      unfold writeFileFS
      simp [hp, hi]
    · show (writeFileFS _ _ _).files p = _
      unfold writeFileFS
      dsimp only
      rw [if_neg hp, hbase]
      have hand : ¬ (code.instructions ≠ "" ∧ p = out ++ ["SETUP.md"]) := fun h => hp h.2
      rw [if_neg hand]
  · rw [if_neg hi]
    rw [hbase]
    have : ¬ (code.instructions ≠ "" ∧ p = out ++ ["SETUP.md"]) := fun h => hi h.1
    rw [if_neg this]

/-! ## Prompt construction of `ClaudeService.generateCode` -/

/-- The `nextjs` entry of the instruction table in
`ClaudeService.getFrameworkInstructions`. -/
def nextjsInstructions : List Char :=
  ("\n- Use Next.js App Router (app directory)\n- Create page.tsx for pages\n- Use \x27use client\x27 directive where needed\n- Implement proper metadata exports").data

/-- The `react` entry of the instruction table, which is also the fallback for
unrecognized framework keys (`instructions[framework] || instructions.react`). -/
def reactInstructions : List Char :=
  ("\n- Use functional components with hooks\n- Create a proper component structure\n- Use React.FC for component typing").data

/-- The `vue` entry of the instruction table. -/
def vueInstructions : List Char :=
  ("\n- Use Vue 3 Composition API\n- Use <script setup lang=\"ts\">\n- Create .vue single file components").data

/-- The property names a plain object literal inherits from
`Object.prototype`: a computed lookup `instructions[framework]` on any of
these keys finds the inherited member on the prototype chain, and every one
of those members is truthy. -/
def objectProtoProps : List (List Char) :=
  ["constructor".data, "hasOwnProperty".data, "isPrototypeOf".data,
   "propertyIsEnumerable".data, "toLocaleString".data, "toString".data,
   "valueOf".data, "__defineGetter__".data, "__defineSetter__".data,
   "__lookupGetter__".data, "__lookupSetter__".data, "__proto__".data]

/-- The string an inherited `Object.prototype` member coerces to when spliced
into the prompt template literal: the native methods stringify as
`function name() \x7b [native code] \x7d`, and the `__proto__` accessor yields
`Object.prototype` itself, which coerces to `[object Object]`. -/
def protoMemberString (framework : List Char) : List Char :=
  if framework = "__proto__".data then "[object Object]".data
  else "function ".data ++ framework ++ "() \x7b [native code] \x7d".data

/-- `ClaudeService.getFrameworkInstructions`:
`instructions[framework] || instructions.react` on the three-entry object
literal.  The computed lookup checks the own properties `nextjs`, `react`,
`vue` first, then the prototype chain: on a key inherited from
`Object.prototype` it returns that truthy member (stringified into the
prompt), and only a key found nowhere yields `undefined` and falls back to
the react entry. -/
def getFrameworkInstructions (framework : List Char) : List Char :=
  if framework = "nextjs".data then nextjsInstructions
  else if framework = "react".data then reactInstructions
  else if framework = "vue".data then vueInstructions
  else if framework ∈ objectProtoProps then protoMemberString framework
  else reactInstructions

/-- The prompt template text before the serialized spec. -/
def codePromptPart1 : List Char :=
  ("You are an expert frontend developer. Generate production-ready code based on this design specification:\n\n").data

/-- The prompt template text between the serialized spec and the framework
name. -/
def codePromptPart2 : List Char := ("\n\nFramework: ").data

/-- The prompt template text after the framework instruction block. -/
def codePromptPart3 : List Char :=
  ("\n\nRequirements:\n1. Use TypeScript\n2. Use Tailwind CSS for styling\n3. Create reusable components\n4. Follow best practices for the chosen framework\n5. Include proper types/interfaces\n\nRespond in this JSON format:\n\x7b\n  \"files\": [\n    \x7b\n      \"path\": \"relative/path/to/file.tsx\",\n      \"content\": \"file content here\",\n      \"language\": \"typescript\"\n    \x7d\n  ],\n  \"instructions\": \"Setup and usage instructions\"\n\x7d\n\nGenerate complete, working code. Respond ONLY with valid JSON.").data

/-- The prompt `ClaudeService.generateCode` builds: a pure function of the
design spec and the framework string, splicing in
`JSON.stringify(design, null, 2)` and the selected instruction block. -/
def buildCodePrompt (design : DesignSpec) (framework : List Char) : List Char :=
  codePromptPart1 ++ jsonStringify (designSpecToJson design) ++ codePromptPart2 ++
    framework ++ '\n' :: getFrameworkInstructions framework ++ codePromptPart3

/-! ## `GeminiService` branching (the OAuth-capable version of
`src/services/gemini.ts`) -/

/-- Effects the Gemini wrapper can perform. -/
inductive GEvent where
  | networkCall : GEvent
deriving DecidableEq

/-- The process environment and external credential state the service reads:
the two environment variables and the outcomes of the two `gcloud`
invocations (`none` models a failing invocation). -/
structure GeminiEnv where
  geminiApiKey : Option String
  gcloudToken : Option String
  googleCloudProject : Option String
  gcloudProject : Option String

/-- The error `GeminiService.getAccessToken` raises when `gcloud` fails. -/
def gcloudAuthError : String :=
  "Google OAuth not configured. Run: gcloud auth application-default login\nOr set GEMINI_API_KEY environment variable."

/-- The error `GeminiService.getProjectId` raises when `gcloud` fails. -/
def projectIdError : String :=
  "Could not determine Google Cloud project. Set GOOGLE_CLOUD_PROJECT env var."

/-- `GeminiService.getAccessToken`. -/
def getAccessToken (env : GeminiEnv) : Except String String :=
  match env.gcloudToken with
  | some t => .ok t
  | none => .error gcloudAuthError

/-- `GeminiService.getProjectId`. -/
def getProjectId (env : GeminiEnv) : Except String String :=
  match env.gcloudProject with
  | some p => .ok p
  | none => .error projectIdError

/-- `GeminiService.callGeminiAPI`: the constructor uses the API key when the
environment variable is set, otherwise the OAuth path first obtains a token,
then a project id, then issues the REST call.  `net` is the network oracle
standing in for the remote model; its reply is returned as the response text
(HTTP-level failures of a call already issued are outside the claims proved
here).  Each network call actually issued is recorded as an event. -/
def callGeminiAPI (env : GeminiEnv) (net : List Char → List Char) (prompt : List Char) :
    Except String (List Char) × List GEvent :=
  if env.geminiApiKey.isSome then (.ok (net prompt), [.networkCall])
  else
    match getAccessToken env with
    | .error e => (.error e, [])
    | .ok _ =>
      match (match env.googleCloudProject with
             | some p => Except.ok p
             | none => getProjectId env) with
      | .error e => (.error e, [])
      | .ok _ => (.ok (net prompt), [.networkCall])

/-- The fixed instructional preamble of `GeminiService.generateDesign`,
ending in the text that the user prompt is appended to. -/
def geminiDesignPreamble : List Char :=
  ("You are an expert UI/UX designer. Generate a detailed design specification in JSON format.\n\nThe design spec should include:\n1. name: Project name\n2. description: Brief description\n3. layout: Overall layout structure with sections\n4. colorScheme: Color palette (primary, secondary, accent, background, text)\n5. typography: Font choices\n6. components: List of UI components with their properties\n\nRespond ONLY with valid JSON, no markdown or explanation.\n\nCreate a design specification for: ").data

/-- `GeminiService.generateDesign`: build the prompt, call the model, extract
and parse the JSON object from the response. -/
def generateDesign (env : GeminiEnv) (net : List Char → List Char) (prompt : List Char) :
    Except String Json × List GEvent :=
  match callGeminiAPI env net (geminiDesignPreamble ++ prompt) with
  | (.ok text, ev) => (parseDesignResponse text, ev)
  | (.error e, ev) => (.error e, ev)

/-- The `design generate` command path: exit status 0 on success, 1 on any
caught error (`src/commands/design.ts`). -/
def designGenerateExit (env : GeminiEnv) (net : List Char → List Char)
    (prompt : List Char) : Nat :=
  match (generateDesign env net prompt).1 with
  | .ok _ => 0
  | .error _ => 1

/-! ## `ClaudeService` branching and the delegated CLI call
(`src/services/claude.ts`) -/

/-- Effects the Claude wrapper can perform. -/
inductive CEvent where
  | anthropicCall : CEvent
  | execPrimary : CEvent
  | execSecondary : CEvent
  | unlinkOk : CEvent
  | unlinkFail : CEvent
deriving DecidableEq

/-- The error `fs.unlinkSync` raises on a file that no longer exists. -/
def enoentError : String := "ENOENT: no such file or directory, unlink of the temp prompt file"

/-- The descriptive error `callClaudeCode` constructs after both invocation
strategies have failed, naming the login command and the environment
variable. -/
def cliUnavailableError (orig : String) : String :=
  "Claude Code CLI not available or not logged in.\nRun: claude login\nOr set ANTHROPIC_API_KEY environment variable.\nOriginal error: " ++ orig

/-- `fs.unlinkSync` on the temp prompt file: succeeds exactly when the file
still exists; on a missing file it raises ENOENT.  Returns the outcome, the
new existence state, and the event recorded. -/
def unlinkTemp (present : Bool) : Except String Unit × Bool × CEvent :=
  if present then (.ok (), false, .unlinkOk) else (.error enoentError, false, .unlinkFail)

/-- The catch block of `callClaudeCode`: run the interactive secondary
strategy; on its success unlink the temp file and return its output, on its
failure unlink and raise the descriptive CLI error.  An unlink exception
raised inside the inner try is caught by the inner catch, whose own unlink
then raises again, and that second exception escapes raw. -/
def ccCatch (present : Bool) (origErr : String) (ev : List CEvent)
    (sec : Except String (List Char)) : Except String (List Char) × Bool × List CEvent :=
  match sec with
  | .ok result =>
    match unlinkTemp present with
    | (.ok _, e2, v) => (.ok result, e2, ev ++ [.execSecondary, v])
    | (.error _, e2, v) =>
      match unlinkTemp e2 with
      | (.ok _, e3, v2) =>
        (.error (cliUnavailableError origErr), e3, ev ++ [.execSecondary, v, v2])
      | (.error m2, e3, v2) => (.error m2, e3, ev ++ [.execSecondary, v, v2])
  | .error _ =>
    match unlinkTemp present with
    | (.ok _, e2, v) => (.error (cliUnavailableError origErr), e2, ev ++ [.execSecondary, v])
    | (.error m2, e2, v) => (.error m2, e2, ev ++ [.execSecondary, v])

/-- `ClaudeService.callClaudeCode`: write the prompt to a temp file, run
`execAsync` (`prim` is its outcome: an exception, or a `(stdout, stderr)`
pair), unlink the temp file, raise when there is stderr output and no stdout,
and handle any raised error in the catch block above with the interactive
secondary strategy (`sec`).  Returns the result, whether the temp file still
exists at the end, and the event trace. -/
def callClaudeCode (prim : Except String (List Char × List Char))
    (sec : Except String (List Char)) : Except String (List Char) × Bool × List CEvent :=
  match prim with
  | .ok (stdout, stderr) =>
    match unlinkTemp true with
    | (.ok _, e1, v) =>
      if stderr ≠ [] ∧ stdout = [] then
        ccCatch e1 (String.mk stderr) [.execPrimary, v] sec
      else (.ok stdout, e1, [.execPrimary, v])
    | (.error m, e1, v) => ccCatch e1 m [.execPrimary, v] sec
  | .error e => ccCatch true e [.execPrimary] sec

/-- `ClaudeService.callAPI`: the constructor disables the SDK client exactly
when `ANTHROPIC_API_KEY` is unset, in which case every call is delegated to
the Claude Code CLI. -/
def callAPI (anthropicKey : Option String) (net : List Char → List Char)
    (prim : Except String (List Char × List Char)) (sec : Except String (List Char))
    (prompt : List Char) : Except String (List Char) × List CEvent :=
  match anthropicKey with
  | some _ => (.ok (net prompt), [.anthropicCall])
  | none =>
    match callClaudeCode prim sec with
    | (r, _, ev) => (r, ev)

/-- `ClaudeService.generateCode`: build the prompt, call the backend, extract
and parse the JSON object from the response. -/
def generateCode (anthropicKey : Option String) (net : List Char → List Char)
    (prim : Except String (List Char × List Char)) (sec : Except String (List Char))
    (design : DesignSpec) (framework : List Char) : Except String Json × List CEvent :=
  match callAPI anthropicKey net prim sec (buildCodePrompt design framework) with
  | (.ok text, ev) => (parseCodeResponse text, ev)
  | (.error e, ev) => (.error e, ev)

/-- The `code generate` command path: exit status 0 on success, 1 on any
caught error (`src/commands/code.ts`). -/
def codeGenerateExit (anthropicKey : Option String) (net : List Char → List Char)
    (prim : Except String (List Char × List Char)) (sec : Except String (List Char))
    (design : DesignSpec) (framework : List Char) : Nat :=
  match (generateCode anthropicKey net prim sec design framework).1 with
  | .ok _ => 0
  | .error _ => 1

/-! ## Claim theorems -/

/-- C7: for every response text containing at least one open brace with some
later close brace — equivalently, any text decomposing into an open-brace-free
prefix, the first open brace, an arbitrary middle, the last close brace and a
close-brace-free suffix — the extracted substring fed to `JSON.parse` is
exactly the span from the first open brace through the last close brace,
regardless of any braces or JSON objects in between. -/
theorem claim7_greedy_span (p m q : List Char) (hp : '{' ∉ p) (hq : '}' ∉ q) :
    extractJson (p ++ '{' :: (m ++ '}' :: q)) = some ('{' :: (m ++ ['}'])) :=
  extractJson_decomp p m q hp hq

/-- C7 witness: a concrete text whose middle contains further braces and a
nested object; the match still runs from the first open brace to the last
close brace. -/
theorem claim7_greedy_span_witness :
    ('{' ∉ "ok: ".data) ∧ ('}' ∉ " end".data) ∧
    extractJson ("ok: ".data ++ '{' :: ("\"a\":1\x7d x \x7b\"b\":2".data ++ '}' :: " end".data))
      = some ('{' :: ("\"a\":1\x7d x \x7b\"b\":2".data ++ ['}'])) :=
  ⟨by decide, by decide, claim7_greedy_span _ _ _ (by decide) (by decide)⟩

/-- Trim surrounding JSON whitespace, the only freedom `JSON.parse` allows
around a document. -/
def trimWs (s : List Char) : List Char :=
  ((s.dropWhile isWs).reverse.dropWhile isWs).reverse

/-- Decides the claim phrase "contains exactly one well-formed JSON object":
every contiguous substring of `s` that `JSON.parse` accepts as an object
equals `j` up to surrounding whitespace. -/
def objSpanUnique (s j : List Char) : Bool :=
  (List.range (s.length + 1)).all fun i =>
    (List.range (s.length + 1)).all fun n =>
      match jsonParse ((s.drop i).take n) with
      | some (.obj _) => trimWs ((s.drop i).take n) == j
      | _ => true

/-- C1 counterexample: this response text contains exactly one well-formed
JSON object, surrounded by prose, yet extraction feeds the greedy span from
the first open brace to the last close brace (which drags in the trailing
prose brace) to `JSON.parse`, and the call fails instead of yielding that
object. -/
theorem claim1_counterexample :
    ("Here: \x7b\"a\":1\x7d tail\x7d".data
      = "Here: ".data ++ "\x7b\"a\":1\x7d".data ++ " tail\x7d".data) ∧
    jsonParse "\x7b\"a\":1\x7d".data = some (.obj [("a".data, .num 1)]) ∧
    objSpanUnique "Here: \x7b\"a\":1\x7d tail\x7d".data "\x7b\"a\":1\x7d".data = true ∧
    parseDesignResponse "Here: \x7b\"a\":1\x7d tail\x7d".data = .error jsonSyntaxError :=
  ⟨by decide, rfl, by decide, rfl⟩

/-- C1 (amended): extraction yields exactly the contained object whenever the
prose before it holds no open brace and the prose after it holds no close
brace; and on any text with no open-brace-then-close-brace span, each of the
five methods fails deterministically with its own context-specific message. -/
theorem claim1_extraction (p m q : List Char) (v : Json) (s : List Char) :
    ('{' ∉ p → '}' ∉ q → jsonParse ('{' :: (m ++ ['}'])) = some v →
      parseDesignResponse (p ++ '{' :: (m ++ '}' :: q)) = .ok v ∧
      parseImageResponse (p ++ '{' :: (m ++ '}' :: q)) = .ok v ∧
      parseRefineResponse (p ++ '{' :: (m ++ '}' :: q)) = .ok v ∧
      parseCodeResponse (p ++ '{' :: (m ++ '}' :: q)) = .ok v ∧
      parseFeatureResponse (p ++ '{' :: (m ++ '}' :: q)) = .ok v) ∧
    ((¬ ∃ a b c, s = a ++ '{' :: (b ++ '}' :: c)) →
      parseDesignResponse s = .error "Failed to parse design specification from Gemini response" ∧
      parseImageResponse s = .error "Failed to parse design from image" ∧
      parseRefineResponse s = .error "Failed to parse refined design" ∧
      parseCodeResponse s = .error "Failed to parse code from Claude response" ∧
      parseFeatureResponse s = .error "Failed to parse feature addition response") := by
  constructor
  · intro hp hq hv
    have he := extractJson_decomp p m q hp hq
    refine ⟨?_, ?_, ?_, ?_, ?_⟩ <;>
      · show extractAndParse _ _ = _
        unfold extractAndParse
        rw [he]
        dsimp only
        rw [hv]
  · intro hs
    have he := extractJson_none_of_no_span s hs
    refine ⟨?_, ?_, ?_, ?_, ?_⟩ <;>
      · show extractAndParse _ _ = _
        unfold extractAndParse
        rw [he]

/-- C1 witness: both halves at concrete inputs — a fenced object in prose is
recovered, and a braceless text yields the five distinct context messages. -/
theorem claim1_extraction_witness :
    (parseDesignResponse ("json: ".data ++ '{' :: ("\"a\": 1".data ++ '}' :: " done".data))
        = .ok (.obj [("a".data, .num 1)]) ∧
      parseCodeResponse ("json: ".data ++ '{' :: ("\"a\": 1".data ++ '}' :: " done".data))
        = .ok (.obj [("a".data, .num 1)])) ∧
    (parseDesignResponse "no braces here".data
        = .error "Failed to parse design specification from Gemini response" ∧
      parseCodeResponse "no braces here".data
        = .error "Failed to parse code from Claude response") :=
  ⟨⟨((claim1_extraction "json: ".data "\"a\": 1".data " done".data
        (.obj [("a".data, .num 1)]) "no braces here".data).1
      (by decide) (by decide) rfl).1,
    ((claim1_extraction "json: ".data "\"a\": 1".data " done".data
        (.obj [("a".data, .num 1)]) "no braces here".data).1
      (by decide) (by decide) rfl).2.2.2.1⟩,
   ⟨((claim1_extraction "json: ".data "\"a\": 1".data " done".data
        (.obj [("a".data, .num 1)]) "no braces here".data).2
      (by
        rintro ⟨a, b, c, h⟩
        have hm : '{' ∈ "no braces here".data := by rw [h]; simp
        exact absurd hm (by decide))).1,
    ((claim1_extraction "json: ".data "\"a\": 1".data " done".data
        (.obj [("a".data, .num 1)]) "no braces here".data).2
      (by
        rintro ⟨a, b, c, h⟩
        have hm : '{' ∈ "no braces here".data := by rw [h]; simp
        exact absurd hm (by decide))).2.2.2.1⟩⟩

theorem FS_ext {a b : FS} (hf : a.files = b.files) (hd : a.dirs = b.dirs) : a = b := by
  cases a; cases b; simp_all

theorem saveOutput_dirs (code : GeneratedCode) (out : List String) (s : SaveM) :
    (saveOutput code out s).fs.dirs
      = (saveFilesLoop out code.files (ensureDirM s out)).fs.dirs := by
  unfold saveOutput
  by_cases hi : code.instructions ≠ ""
  · rw [if_pos hi]; rfl
  · rw [if_neg hi]

/-- C2: `saveOutput` writes each listed file's content byte-for-byte verbatim
at the output directory joined with the file's relative path (the write
appears as-is in the write log), creates the output directory and every
intermediate subdirectory implied by the relative path, and leaves at every
path exactly the content of the last write to it — existing files are
overwritten unconditionally, with no conflict detection and no backup: the
prior state survives only at untouched paths.  `DirsDown` is the filesystem
invariant that a directory's ancestors exist. -/
theorem claim2_saveOutput_writes (code : GeneratedCode) (out : List String) (s : SaveM)
    (hdc : DirsDown s.fs) (hout : out ≠ []) :
    (∀ f ∈ code.files, (out ++ f.path, f.content) ∈ (saveOutput code out s).log) ∧
    (saveOutput code out s).fs.dirs out = true ∧
    (∀ f ∈ code.files, ∀ x : List String, x ≠ [] →
      (∃ t, x ++ t = (out ++ f.path).dropLast) →
      (saveOutput code out s).fs.dirs x = true) ∧
    (∀ p, (saveOutput code out s).fs.files p =
      match lastWriteAll code out p with
      | some c => some c
      | none => s.fs.files p) := by
  have hlog : ∀ f ∈ code.files, (out ++ f.path, f.content) ∈
      (saveFilesLoop out code.files (ensureDirM s out)).log := by
    intro f hf
    rw [saveFilesLoop_log]
    exact List.mem_append.2 (Or.inr (List.mem_map.2 ⟨f, hf, rfl⟩))
  refine ⟨?_, ?_, ?_, fun p => saveOutput_files code out s p⟩
  · intro f hf
    unfold saveOutput
    by_cases hi : code.instructions ≠ ""
    · rw [if_pos hi]
      show _ ∈ (saveFilesLoop out code.files (ensureDirM s out)).log ++ _
      exact List.mem_append.2 (Or.inl (hlog f hf))
    · rw [if_neg hi]
      exact hlog f hf
  · rw [show (saveOutput code out s).fs.dirs = _ from saveOutput_dirs code out s]
    exact saveFilesLoop_dirs_mono out _ _ _ (ensureDirFS_dirs_self s.fs out hout)
  · intro f hf x hx hsplit
    rw [show (saveOutput code out s).fs.dirs = _ from saveOutput_dirs code out s]
    exact saveFilesLoop_dirs_split out code.files _
      (DirsDown_ensureDirFS s.fs out hdc) f hf x hx hsplit

/-- C2 witness: writing one nested file into an empty filesystem logs the
verbatim write, creates the intermediate directory, and leaves the content at
the joined path. -/
theorem claim2_saveOutput_writes_witness :
    (["out"] ++ ["components", "ui", "Card.tsx"], "card-src") ∈
      (saveOutput ⟨[⟨["components", "ui", "Card.tsx"], "card-src", "ts"⟩], "run"⟩ ["out"]
        ⟨⟨fun _ => none, fun _ => false⟩, []⟩).log ∧
    (saveOutput ⟨[⟨["components", "ui", "Card.tsx"], "card-src", "ts"⟩], "run"⟩ ["out"]
        ⟨⟨fun _ => none, fun _ => false⟩, []⟩).fs.dirs ["out", "components"] = true ∧
    (saveOutput ⟨[⟨["components", "ui", "Card.tsx"], "card-src", "ts"⟩], "run"⟩ ["out"]
        ⟨⟨fun _ => none, fun _ => false⟩, []⟩).fs.files
        (["out"] ++ ["components", "ui", "Card.tsx"]) = some "card-src" := by
  have hdc : DirsDown (⟨fun _ => none, fun _ => false⟩ : FS) :=
    fun x y _ _ h => by simp at h
  have h := claim2_saveOutput_writes
    ⟨[⟨["components", "ui", "Card.tsx"], "card-src", "ts"⟩], "run"⟩ ["out"]
    ⟨⟨fun _ => none, fun _ => false⟩, []⟩ hdc (by decide)
  refine ⟨h.1 _ (List.mem_singleton.2 rfl), ?_, ?_⟩
  · exact h.2.2.1 _ (List.mem_singleton.2 rfl) ["out", "components"] (by decide)
      ⟨["ui"], by decide⟩
  · exact (h.2.2.2 _).trans rfl

/-- C6: running `saveOutput` a second time with the identical `GeneratedCode`
into the same directory leaves the filesystem exactly as the first run did —
the second run is a no-op on observable filesystem contents. -/
theorem claim6_saveOutput_idempotent (code : GeneratedCode) (out : List String) (s : SaveM) :
    (saveOutput code out (saveOutput code out s)).fs = (saveOutput code out s).fs := by
  set S1 := saveOutput code out s with hS1
  have hfiles : ∀ p, (saveOutput code out S1).fs.files p = S1.fs.files p := by
    intro p
    rw [saveOutput_files]
    cases hlw : lastWriteAll code out p with
    | some c =>
      rw [hS1, saveOutput_files code out s p, hlw]
    | none => rfl
  have hdirs1 : ∀ f ∈ code.files, S1.fs.dirs ((out ++ f.path).dropLast) = true ∨
      (out ++ f.path).dropLast = [] := by
    intro f hf
    rw [hS1, show (saveOutput code out s).fs.dirs = _ from saveOutput_dirs code out s]
    exact saveFilesLoop_dirs_self out code.files _ f hf
  have hdout : S1.fs.dirs out = true ∨ out = [] := by
    by_cases hout : out = []
    · exact Or.inr hout
    · left
      rw [hS1, show (saveOutput code out s).fs.dirs = _ from saveOutput_dirs code out s]
      exact saveFilesLoop_dirs_mono out _ _ _ (ensureDirFS_dirs_self s.fs out hout)
  have hdirs : ∀ x, (saveOutput code out S1).fs.dirs x = S1.fs.dirs x := by
    intro x
    rw [show (saveOutput code out S1).fs.dirs = _ from saveOutput_dirs code out S1]
    rw [saveFilesLoop_dirs_noop out code.files (ensureDirM S1 out)
      (fun f hf => by
        show (ensureDirFS S1.fs out).dirs _ = true ∨ _
        rcases hdirs1 f hf with h | h
        · exact Or.inl (ensureDirFS_dirs_mono _ _ _ h)
        · exact Or.inr h) x]
    show (ensureDirFS S1.fs out).dirs x = S1.fs.dirs x
    exact ensureDirFS_dirs_noop S1.fs out hdout x
  exact FS_ext (funext hfiles) (funext hdirs)

/-- C10: `saveOutput` writes the setup document `outputDir/SETUP.md` exactly
when the instructions string is non-empty (the empty string is falsy and
produces no setup step), and the written content is not the instructions
verbatim but the fixed header followed by a blank line and the text. -/
theorem claim10_setup_doc (code : GeneratedCode) (out : List String) (s : SaveM) :
    (code.instructions ≠ "" →
      (saveOutput code out s).fs.files (out ++ ["SETUP.md"])
        = some ("# Setup Instructions\n\n" ++ code.instructions)) ∧
    (code.instructions = "" →
      saveOutput code out s = saveFilesLoop out code.files (ensureDirM s out)) := by
  constructor
  · intro hi
    unfold saveOutput
    rw [if_pos hi]
    show (writeFileFS _ _ _).files _ = _
    unfold writeFileFS
    dsimp only
    rw [if_pos rfl]
  · intro hi
    unfold saveOutput
    rw [if_neg (by simp [hi])]

/-- C10 witness: non-empty instructions yield the headed setup document;
empty instructions skip the setup step entirely. -/
theorem claim10_setup_doc_witness :
    (saveOutput ⟨[], "use pnpm"⟩ ["o"] ⟨⟨fun _ => none, fun _ => false⟩, []⟩).fs.files
        (["o"] ++ ["SETUP.md"]) = some ("# Setup Instructions\n\n" ++ "use pnpm") ∧
    saveOutput ⟨[], ""⟩ ["o"] ⟨⟨fun _ => none, fun _ => false⟩, []⟩
      = saveFilesLoop ["o"] [] (ensureDirM ⟨⟨fun _ => none, fun _ => false⟩, []⟩ ["o"]) :=
  ⟨(claim10_setup_doc ⟨[], "use pnpm"⟩ ["o"] ⟨⟨fun _ => none, fun _ => false⟩, []⟩).1
      (by decide),
   (claim10_setup_doc ⟨[], ""⟩ ["o"] ⟨⟨fun _ => none, fun _ => false⟩, []⟩).2 rfl⟩

/-- C3: with no credential configured for a service — the API-key environment
variable unset and the external login tooling failing — the request fails
with the descriptive auth-setup error naming the environment variable and the
login command, the event trace records no call to the remote model endpoint,
and the command exits non-zero. -/
theorem claim3_no_credentials (env : GeminiEnv) (net : List Char → List Char)
    (prompt : List Char) (anthropicNet : List Char → List Char)
    (sec : Except String (List Char)) (d : DesignSpec) (fw : List Char)
    (e m : String)
    (hk : env.geminiApiKey = none) (ht : env.gcloudToken = none)
    (hsec : sec = .error m) :
    (generateDesign env net prompt = (.error gcloudAuthError, []) ∧
      designGenerateExit env net prompt = 1) ∧
    (generateCode none anthropicNet (.error e) sec d fw
        = (.error (cliUnavailableError e), [.execPrimary, .execSecondary, .unlinkOk]) ∧
      codeGenerateExit none anthropicNet (.error e) sec d fw = 1) := by
  have hg : callGeminiAPI env net (geminiDesignPreamble ++ prompt)
      = (.error gcloudAuthError, []) := by
    unfold callGeminiAPI
    rw [hk]
    rw [if_neg (by simp)]
    unfold getAccessToken
    rw [ht]
  subst hsec
  refine ⟨⟨?_, ?_⟩, ?_, ?_⟩
  · unfold generateDesign
    rw [hg]
  · unfold designGenerateExit generateDesign
    rw [hg]
  · rfl
  · rfl

/-- C3 witness: a fully unconfigured environment at a concrete prompt. -/
theorem claim3_no_credentials_witness :
    (generateDesign ⟨none, none, none, none⟩ (fun _ => []) "landing page".data
        = (.error gcloudAuthError, []) ∧
      designGenerateExit ⟨none, none, none, none⟩ (fun _ => []) "landing page".data = 1) ∧
    (generateCode none (fun _ => []) (.error "spawn claude ENOENT")
        (.error "spawn claude ENOENT") ⟨[], [], ⟨[], []⟩, ⟨[], [], [], [], []⟩, ⟨[], []⟩, []⟩
        "nextjs".data
        = (.error (cliUnavailableError "spawn claude ENOENT"),
          [.execPrimary, .execSecondary, .unlinkOk]) ∧
      codeGenerateExit none (fun _ => []) (.error "spawn claude ENOENT")
        (.error "spawn claude ENOENT") ⟨[], [], ⟨[], []⟩, ⟨[], [], [], [], []⟩, ⟨[], []⟩, []⟩
        "nextjs".data = 1) :=
  claim3_no_credentials ⟨none, none, none, none⟩ (fun _ => []) "landing page".data
    (fun _ => []) (.error "spawn claude ENOENT")
    ⟨[], [], ⟨[], []⟩, ⟨[], [], [], [], []⟩, ⟨[], []⟩, []⟩ "nextjs".data
    "spawn claude ENOENT" "spawn claude ENOENT" rfl rfl rfl

theorem ccCatch_present_false (present : Bool) (origErr : String) (ev : List CEvent)
    (sec : Except String (List Char)) : (ccCatch present origErr ev sec).2.1 = false := by
  cases sec <;> cases present <;> rfl

/-- C8: the first conjunct shows the temp prompt file is removed before
control returns on every path; the second evaluates the code at the failing
input — the primary invocation returns normally with stderr output and empty
stdout, the secondary strategy succeeds — where the early removal makes the
two later duplicate removal attempts raise ENOENT, and that error escapes
raw, replacing the secondary's successful result. -/
theorem claim8_tempfile_cleanup (prim : Except String (List Char × List Char))
    (sec : Except String (List Char)) :
    ((callClaudeCode prim sec).2.1 = false) ∧
    (callClaudeCode (.ok ([], "warning".data)) (.ok "OK".data)
      = (.error enoentError, false,
        [.execPrimary, .unlinkOk, .execSecondary, .unlinkFail, .unlinkFail])) := by
  constructor
  · cases prim with
    | error e => exact ccCatch_present_false true e [.execPrimary] sec
    | ok pr =>
      obtain ⟨stdout, stderr⟩ := pr
      show (callClaudeCode (.ok (stdout, stderr)) sec).2.1 = false
      unfold callClaudeCode
      rw [show unlinkTemp true = (.ok (), false, .unlinkOk) from rfl]
      dsimp only
      by_cases h : stderr ≠ [] ∧ stdout = []
      · rw [if_pos h]
        exact ccCatch_present_false false (String.mk stderr) [.execPrimary, .unlinkOk] sec
      · rw [if_neg h]
  · rfl

/-- C9 counterexample: a primary failure in which `execAsync` resolves with
stderr output and empty stdout is routed into the same catch block; the
secondary strategy is attempted exactly once and succeeds, yet the overall
operation does not succeed with the secondary's output: the duplicate unlink
of the already removed temp file raises ENOENT, which escapes raw — refuting
the original claim's "fails for any reason" scope. -/
theorem claim9_counterexample :
    ((callClaudeCode (.ok ([], "warning".data)) (.ok "OK".data)).2.2.count .execSecondary
      = 1) ∧
    (callClaudeCode (.ok ([], "warning".data)) (.ok "OK".data)).1 = .error enoentError ∧
    (callClaudeCode (.ok ([], "warning".data)) (.ok "OK".data)).1 ≠ .ok "OK".data :=
  ⟨rfl, rfl, fun h => Except.noConfusion h⟩

/-- C9 (amended): every failing primary invocation — whether `execAsync`
itself rejects, or it resolves with stderr output and no stdout and the code
throws — triggers exactly one attempt of the secondary invocation strategy.
When the primary invocation itself rejects, the original claim holds in
full: the operation succeeds with the secondary's output when the secondary
succeeds, and fails with the descriptive CLI-not-available error exactly
when both strategies have failed.  When the primary resolves but is treated
as failed (stderr without stdout), the temp file was already removed before
the throw, and whatever the secondary does the operation returns the raw
ENOENT of the duplicate removal — a succeeding secondary's output is
discarded and the descriptive error never appears on that path. -/
theorem claim9_secondary_fallback (e : String) (sec : Except String (List Char))
    (stderr : List Char) (hstderr : stderr ≠ []) :
    ((callClaudeCode (.error e) sec).2.2.count .execSecondary = 1) ∧
    ((callClaudeCode (.ok ([], stderr)) sec).2.2.count .execSecondary = 1) ∧
    (∀ r, sec = .ok r → (callClaudeCode (.error e) sec).1 = .ok r) ∧
    (∀ m, sec = .error m → (callClaudeCode (.error e) sec).1
      = .error (cliUnavailableError e)) ∧
    ((callClaudeCode (.ok ([], stderr)) sec).1 = .error enoentError) := by
  have hstep : callClaudeCode (.ok ([], stderr)) sec
      = ccCatch false (String.mk stderr) [.execPrimary, .unlinkOk] sec := by
    unfold callClaudeCode
    rw [show unlinkTemp true = (.ok (), false, .unlinkOk) from rfl]
    dsimp only
    rw [if_pos ⟨hstderr, rfl⟩]
  refine ⟨?_, ?_, ?_, ?_, ?_⟩
  · cases sec with
    | ok r => rfl
    | error m => rfl
  · rw [hstep]
    cases sec with
    | ok r => rfl
    | error m => rfl
  · intro r h; subst h; rfl
  · intro m h; subst h; rfl
  · rw [hstep]
    cases sec with
    | ok r => rfl
    | error m => rfl

/-- C9 witness: with a rejecting primary, a succeeding secondary's output is
returned and a failing one yields the descriptive error, the secondary being
attempted exactly once; with a stderr-without-stdout primary, the secondary
is also attempted exactly once but the result is the escaping ENOENT. -/
theorem claim9_secondary_fallback_witness :
    ("warning".data ≠ ([] : List Char)) ∧
    (callClaudeCode (.error "exec failed") (.ok "OK".data)).2.2.count .execSecondary = 1 ∧
    (callClaudeCode (.ok ([], "warning".data))
      (.ok "OK".data)).2.2.count .execSecondary = 1 ∧
    (callClaudeCode (.error "exec failed") (.ok "OK".data)).1 = .ok "OK".data ∧
    (callClaudeCode (.error "exec failed") (.error "spawn failed")).1
      = .error (cliUnavailableError "exec failed") ∧
    (callClaudeCode (.ok ([], "warning".data)) (.error "spawn failed")).1
      = .error enoentError :=
  ⟨by decide,
   (claim9_secondary_fallback "exec failed" (.ok "OK".data) "warning".data (by decide)).1,
   (claim9_secondary_fallback "exec failed" (.ok "OK".data) "warning".data (by decide)).2.1,
   (claim9_secondary_fallback "exec failed" (.ok "OK".data) "warning".data
     (by decide)).2.2.1 _ rfl,
   (claim9_secondary_fallback "exec failed" (.error "spawn failed") "warning".data
     (by decide)).2.2.2.1 _ rfl,
   (claim9_secondary_fallback "exec failed" (.error "spawn failed") "warning".data
     (by decide)).2.2.2.2⟩

/-- C5: a DesignSpec saved to a JSON file by `saveJson` (which writes
`JSON.stringify(data, null, 2)`) and reloaded by the refine / code-generate
path (`readFileSync` then `JSON.parse`) reproduces exactly the design's
serialized tree: field-for-field equality, including the ordered sections and
the recursively nested components, since `designSpecToJson` embeds them in
written order. -/
theorem claim5_designSpec_roundtrip (d : DesignSpec) (p : List String) (fs : FS) :
    loadJsonFile (saveJson (designSpecToJson d) p fs) p = some (designSpecToJson d) := by
  unfold loadJsonFile saveJson readFileFS writeFileFS
  dsimp only
  rw [if_pos rfl]
  exact jsonParse_stringify _
